import Mathlib

/-
Verification development for the NAGA repository (src/models.py, src/datasets.py).

The transfer-function layers (classes LTI and LTI2d in src/models.py) are built from
torch.fft primitives (rfft, irfft, rfft2, irfft2), torch.nn.functional.pad, torch.unbind,
torch.flip, complex conjugation and einsum channel mixing.  We embed them shallowly over
exact real and complex arithmetic:

  - a real 1-D tensor of logical length n is a function from Nat to Real that the
    development keeps equal to zero at indices at or beyond n (padding is explicit in
    each definition);
  - torch.fft.rfft(x, n) is modelled by the discrete Fourier transform formula
    rfft n x k = sum over j < n of x j * (w n)⁻¹ ^ (j * k), where w n is the principal
    n-th root of unity exp(2 pi I / n).  torch stores only the bins k <= n / 2;
    the formula is total in k, and the inverse transform only ever reads bins k <= n / 2,
    which keeps the model faithful to the stored half spectrum;
  - torch.fft.irfft(F, n) reconstructs the full spectrum from the stored half spectrum by
    Hermitian symmetry (hermExt) and applies the normalized inverse transform, taking the
    real component, exactly as the C2R transform does;
  - the 2-D pair rfft2 and irfft2 is modelled in the same way, with the real (half
    spectrum) axis being the last of the two transformed axes.

Fallible construction (assert statements, file loading in src/datasets.py) is modelled
with Option and Except.  Machine dtypes are modelled exactly: int16 wav data as integers,
uint8 pixel bytes as integers with a boundedness invariant tied to the dtype tag.
-/

open Finset

/-- Principal N-th root of unity used by the discrete Fourier transform. -/
noncomputable def w (N : ℕ) : ℂ := Complex.exp (2 * Real.pi * Complex.I / N)

/-- Forward discrete Fourier transform of length N (the convention used by torch.fft:
negative exponent, no normalization). -/
noncomputable def dft (N : ℕ) (x : ℕ → ℂ) (k : ℕ) : ℂ :=
  ∑ j ∈ range N, x j * (w N)⁻¹ ^ (j * k)

/-- Inverse discrete Fourier transform of length N (positive exponent, 1/N factor). -/
noncomputable def idft (N : ℕ) (X : ℕ → ℂ) (j : ℕ) : ℂ :=
  (N : ℂ)⁻¹ * ∑ k ∈ range N, X k * w N ^ (j * k)

/-- Model of torch.fft.rfft(x, n): the discrete Fourier transform of the real input
resized to length n.  torch stores bins k with k <= n / 2; the formula below is total
in k and agrees with the stored value on those bins. -/
noncomputable def rfft (n : ℕ) (x : ℕ → ℝ) (k : ℕ) : ℂ :=
  dft n (fun j => ((x j : ℝ) : ℂ)) k

/-- Hermitian extension of a stored half spectrum to a full length-n spectrum:
bins beyond n / 2 are the conjugates of their mirror bins.  Only bins k <= n / 2 of the
argument are ever read, matching the half-spectrum storage of torch.fft.rfft. -/
noncomputable def hermExt (n : ℕ) (F : ℕ → ℂ) (k : ℕ) : ℂ :=
  if k ≤ n / 2 then F k else (starRingEnd ℂ) (F (n - k))

/-- Model of torch.fft.irfft(F, n): normalized inverse transform of the Hermitian
extension of the half spectrum, keeping the real component (the C2R transform). -/
noncomputable def irfft (n : ℕ) (F : ℕ → ℂ) (j : ℕ) : ℝ :=
  (idft n (hermExt n F) j).re

/-- Truncation to the first L entries of a 1-D signal (zero beyond L).  Used to model
both slicing and implicit zero padding of a length-L tensor inside a length-2L transform. -/
def cut (L : ℕ) (x : ℕ → ℝ) (t : ℕ) : ℝ := if t < L then x t else 0

/-- Conjugate symmetry of a length-n spectrum: the property satisfied by the discrete
Fourier transform of a real signal, under which the Hermitian extension of the stored
half spectrum reproduces the full spectrum. -/
def ConjSym (n : ℕ) (F : ℕ → ℂ) : Prop :=
  ∀ k, 0 < k → k < n → (starRingEnd ℂ) (F (n - k)) = F k

/-- Two-dimensional discrete Fourier transform (sizes N1 and N2, torch sign convention). -/
noncomputable def dft2 (N1 N2 : ℕ) (x : ℕ → ℕ → ℂ) (k1 k2 : ℕ) : ℂ :=
  ∑ t1 ∈ range N1, ∑ t2 ∈ range N2, x t1 t2 * (w N1)⁻¹ ^ (t1 * k1) * (w N2)⁻¹ ^ (t2 * k2)

/-- Model of torch.fft.rfft2(x, s=(N1, N2)): 2-D transform of the real input resized to
(N1, N2).  torch stores the half spectrum k2 <= N2 / 2 of the last transformed axis;
the formula is total and agrees with the stored value on those bins. -/
noncomputable def rfft2 (N1 N2 : ℕ) (x : ℕ → ℕ → ℝ) (k1 k2 : ℕ) : ℂ :=
  dft2 N1 N2 (fun a b => ((x a b : ℝ) : ℂ)) k1 k2

/-- Hermitian extension of a 2-D half spectrum (stored bins k2 <= N2 / 2) to the full
(N1, N2) spectrum: missing bins are conjugates of the mirror bins in both axes. -/
noncomputable def hermExt2 (N1 N2 : ℕ) (F : ℕ → ℕ → ℂ) (k1 k2 : ℕ) : ℂ :=
  if k2 ≤ N2 / 2 then F k1 k2 else (starRingEnd ℂ) (F ((N1 - k1) % N1) (N2 - k2))

/-- Model of torch.fft.irfft2(F, s=(N1, N2)): normalized inverse 2-D transform of the
Hermitian extension, keeping the real component. -/
noncomputable def irfft2 (N1 N2 : ℕ) (F : ℕ → ℕ → ℂ) (t1 t2 : ℕ) : ℝ :=
  (((N1 : ℂ) * (N2 : ℂ))⁻¹ *
    ∑ k1 ∈ range N1, ∑ k2 ∈ range N2,
      hermExt2 N1 N2 F k1 k2 * w N1 ^ (t1 * k1) * w N2 ^ (t2 * k2)).re

/-- Truncation of a 2-D signal to the (L1, L2) top-left block (zero outside). -/
def cut2 (L1 L2 : ℕ) (x : ℕ → ℕ → ℝ) (t1 t2 : ℕ) : ℝ :=
  if t1 < L1 ∧ t2 < L2 then x t1 t2 else 0

namespace LTI

/-- Hyperparameters stored by LTI.__init__ (src/models.py lines 14-32). -/
structure Config where
  input_dim : ℕ
  output_dim : ℕ
  order : ℕ
  causal : Bool
  mimo : Bool

/-- Model of LTI.__init__ (src/models.py lines 14-32): the assert on line 27 makes
construction fail (None) exactly when it is violated; zero_init only selects the
parameter initializer and is irrelevant to the assertion. -/
def init (input_dim output_dim order : ℕ) (causal mimo zero_init : Bool) : Option Config :=
  if mimo || (input_dim == output_dim) then
    some ⟨input_dim, output_dim, order, causal, mimo⟩
  else none

/-- Denominator coefficients after a = pad(denumerator, (1, 0), value=1.0)
(src/models.py line 38): leading coefficient 1, then the order learned coefficients,
zero beyond the tensor extent. -/
def aCoeff (order : ℕ) (den : ℕ → ℝ) (t : ℕ) : ℝ :=
  if t = 0 then 1 else if t ≤ order then den (t - 1) else 0

/-- Numerator coefficients after b = pad(numerators, (1, 0), value=0.0)
(src/models.py line 39): leading coefficient 0, then the order learned coefficients. -/
def bCoeff (order : ℕ) (num : ℕ → ℝ) (t : ℕ) : ℝ :=
  if t = 0 then 0 else if t ≤ order then num (t - 1) else 0

/-- H_truncated = rfft(b, n=L) / rfft(a, n=L) (src/models.py line 40), per channel pair. -/
noncomputable def Htrunc (L order : ℕ) (num den : ℕ → ℝ) (k : ℕ) : ℂ :=
  rfft L (bCoeff order num) k / rfft L (aCoeff order den) k

/-- h_truncated = irfft(H_truncated, n=L) (src/models.py line 41). -/
noncomputable def htrunc (L order : ℕ) (num den : ℕ → ℝ) (t : ℕ) : ℝ :=
  irfft L (Htrunc L order num den) t

/-- One component of H = rfft(h_truncated, n=2L) (src/models.py line 44): the length-L
truncated impulse response zero-padded into a length-2L transform. -/
noncomputable def Hpad (L order : ℕ) (num den : ℕ → ℝ) (k : ℕ) : ℂ :=
  rfft (2 * L) (cut L (htrunc L order num den)) k

/-- Combined transfer function (src/models.py lines 45-49): h0 plus the causal
component, plus the conjugated anticausal component when causal is off.  num0 and num1
are the two numerator banks produced by torch.unbind on dim 0. -/
noncomputable def Hfreq (L order : ℕ) (causal : Bool) (h0 : ℝ) (num0 num1 den : ℕ → ℝ)
    (k : ℕ) : ℂ :=
  if causal then (h0 : ℝ) + Hpad L order num0 den k
  else (h0 : ℝ) + Hpad L order num0 den k + (starRingEnd ℂ) (Hpad L order num1 den k)

/-- Model of LTI.__call__ in mimo mode (src/models.py lines 34-59, einsum
"...li,...ijl->...lj"): per output channel j and time t, the inverse transform of the
channel-contracted product of X = rfft(x, n=2L, dim=-2) with the transfer function,
sliced back to the first L steps. -/
noncomputable def call (Din Dout order : ℕ) (causal : Bool)
    (h0 : Fin Din → Fin Dout → ℝ) (num : Fin 2 → Fin Din → Fin Dout → ℕ → ℝ)
    (den : Fin Din → Fin Dout → ℕ → ℝ) (L : ℕ) (x : ℕ → Fin Din → ℝ)
    (t : ℕ) (j : Fin Dout) : ℝ :=
  if t < L then
    irfft (2 * L) (fun k => ∑ i, rfft (2 * L) (cut L (fun s => x s i)) k *
      Hfreq L order causal (h0 i j) (num 0 i j) (num 1 i j) (den i j) k) t
  else 0

/-- Model of LTI.__call__ in elementwise (non-mimo) mode (src/models.py lines 34-59,
einsum "...li,...il->...li"): parameters are indexed by a single channel axis. -/
noncomputable def callElem (D order : ℕ) (causal : Bool)
    (h0 : Fin D → ℝ) (num : Fin 2 → Fin D → ℕ → ℝ) (den : Fin D → ℕ → ℝ)
    (L : ℕ) (x : ℕ → Fin D → ℝ) (t : ℕ) (i : Fin D) : ℝ :=
  if t < L then
    irfft (2 * L) (fun k => rfft (2 * L) (cut L (fun s => x s i)) k *
      Hfreq L order causal (h0 i) (num 0 i) (num 1 i) (den i) k) t
  else 0

end LTI

namespace LTI2d

/-- Model of LTI2d.__init__ (src/models.py lines 69-87): same assertion as LTI. -/
def init (input_dim output_dim order : ℕ) (causal mimo zero_init : Bool) :
    Option LTI.Config :=
  if mimo || (input_dim == output_dim) then
    some ⟨input_dim, output_dim, order, causal, mimo⟩
  else none

/-- Denominator coefficients after a = pad(denumerator, (1, 0, 1, 0), value=1.0)
(src/models.py line 92): the prepended first row and first column are 1.0, the interior
is the learned (order, order) block, zero beyond the (order+1, order+1) extent. -/
def aCoeff2 (order : ℕ) (den : ℕ → ℕ → ℝ) (t1 t2 : ℕ) : ℝ :=
  if t1 ≤ order ∧ t2 ≤ order then
    (if t1 = 0 ∨ t2 = 0 then 1 else den (t1 - 1) (t2 - 1))
  else 0

/-- Numerator coefficients after b = pad(numerators, (1, 0, 1, 0), value=0.0)
(src/models.py line 93): prepended first row and column are 0.0. -/
def bCoeff2 (order : ℕ) (num : ℕ → ℕ → ℝ) (t1 t2 : ℕ) : ℝ :=
  if (t1 ≤ order ∧ t2 ≤ order) ∧ (t1 ≠ 0 ∧ t2 ≠ 0) then num (t1 - 1) (t2 - 1) else 0

/-- H_truncated = rfft2(b, s=(L1, L2)) / rfft2(a, s=(L1, L2)) (src/models.py line 94). -/
noncomputable def Htrunc2 (L1 L2 order : ℕ) (num den : ℕ → ℕ → ℝ) (k1 k2 : ℕ) : ℂ :=
  rfft2 L1 L2 (bCoeff2 order num) k1 k2 / rfft2 L1 L2 (aCoeff2 order den) k1 k2

/-- h_truncated = irfft2(H_truncated, s=(L1, L2)) (src/models.py line 95). -/
noncomputable def htrunc2 (L1 L2 order : ℕ) (num den : ℕ → ℕ → ℝ) (t1 t2 : ℕ) : ℝ :=
  irfft2 L1 L2 (Htrunc2 L1 L2 order num den) t1 t2

/-- One quadrant component of H = rfft2(h_truncated, s=(2 L1, 2 L2))
(src/models.py line 98). -/
noncomputable def Hquad (L1 L2 order : ℕ) (num den : ℕ → ℕ → ℝ) (k1 k2 : ℕ) : ℂ :=
  rfft2 (2 * L1) (2 * L2) (cut2 L1 L2 (htrunc2 L1 L2 order num den)) k1 k2

/-- Combined 2-D transfer function (src/models.py lines 99-106).  num0..num3 are the
four quadrant numerator banks from torch.unbind on dim 0 (cc, ca, ac, aa).  In the
non-causal branch, H_ca and H_ac are flipped along the full-spectrum axis (dim -2,
index k1 goes to 2 L1 - 1 - k1) and H_ac, H_aa are conjugated. -/
noncomputable def Hfreq2 (L1 L2 order : ℕ) (causal : Bool) (h0 : ℝ)
    (num0 num1 num2 num3 den : ℕ → ℕ → ℝ) (k1 k2 : ℕ) : ℂ :=
  if causal then (h0 : ℝ) + Hquad L1 L2 order num0 den k1 k2
  else (h0 : ℝ) + Hquad L1 L2 order num0 den k1 k2
    + Hquad L1 L2 order num1 den (2 * L1 - 1 - k1) k2
    + (starRingEnd ℂ) (Hquad L1 L2 order num2 den (2 * L1 - 1 - k1) k2)
    + (starRingEnd ℂ) (Hquad L1 L2 order num3 den k1 k2)

/-- Model of LTI2d.__call__ in mimo mode (src/models.py lines 89-116, einsum
"...hwi,...ijhw->...hwj"). -/
noncomputable def call (Din Dout order : ℕ) (causal : Bool)
    (h0 : Fin Din → Fin Dout → ℝ) (num : Fin 4 → Fin Din → Fin Dout → ℕ → ℕ → ℝ)
    (den : Fin Din → Fin Dout → ℕ → ℕ → ℝ) (L1 L2 : ℕ) (x : ℕ → ℕ → Fin Din → ℝ)
    (t1 t2 : ℕ) (j : Fin Dout) : ℝ :=
  if t1 < L1 ∧ t2 < L2 then
    irfft2 (2 * L1) (2 * L2) (fun k1 k2 =>
      ∑ i, rfft2 (2 * L1) (2 * L2) (cut2 L1 L2 (fun a b => x a b i)) k1 k2 *
        Hfreq2 L1 L2 order causal (h0 i j) (num 0 i j) (num 1 i j) (num 2 i j)
          (num 3 i j) (den i j) k1 k2) t1 t2
  else 0

/-- Model of LTI2d.__call__ in elementwise mode (einsum "...hwi,...ihw->...hwi"). -/
noncomputable def callElem (D order : ℕ) (causal : Bool)
    (h0 : Fin D → ℝ) (num : Fin 4 → Fin D → ℕ → ℕ → ℝ) (den : Fin D → ℕ → ℕ → ℝ)
    (L1 L2 : ℕ) (x : ℕ → ℕ → Fin D → ℝ) (t1 t2 : ℕ) (i : Fin D) : ℝ :=
  if t1 < L1 ∧ t2 < L2 then
    irfft2 (2 * L1) (2 * L2) (fun k1 k2 =>
      rfft2 (2 * L1) (2 * L2) (cut2 L1 L2 (fun a b => x a b i)) k1 k2 *
        Hfreq2 L1 L2 order causal (h0 i) (num 0 i) (num 1 i) (num 2 i)
          (num 3 i) (den i) k1 k2) t1 t2
  else 0

end LTI2d

namespace TorchShape

/-- Size of the dimension counted from the end (0 is the last dimension). -/
def dimFromEnd (k : ℕ) (s : List ℕ) : Option ℕ := s.reverse.get? k

/-- Replace the size of the dimension counted from the end. -/
def setFromEnd (k n : ℕ) (s : List ℕ) : Option (List ℕ) :=
  if k < s.length then some ((s.reverse.set k n).reverse) else none

/-- Shape of torch.nn.functional.pad on the last dimension with constant padding. -/
def padLast (left right : ℕ) (s : List ℕ) : Option (List ℕ) := do
  let d ← dimFromEnd 0 s
  setFromEnd 0 (left + d + right) s

/-- Shape of torch.fft.rfft(input, n, dim): the transformed dimension becomes
n / 2 + 1; torch rejects n = 0 (invalid number of data points). -/
def rfftShape (n dim : ℕ) (s : List ℕ) : Option (List ℕ) :=
  if n = 0 then none else setFromEnd dim (n / 2 + 1) s

/-- Shape of torch.fft.irfft(input, n, dim) with explicit output length n. -/
def irfftShapeN (n dim : ℕ) (s : List ℕ) : Option (List ℕ) :=
  if n = 0 then none else setFromEnd dim n s

/-- Shape of torch.fft.irfft(input, dim) with the default output length
n = 2 * (input size - 1); rejected when that default is 0. -/
def irfftShapeD (dim : ℕ) (s : List ℕ) : Option (List ℕ) := do
  let d ← dimFromEnd dim s
  let n := 2 * (d - 1)
  if n = 0 then none else setFromEnd dim n s

/-- Broadcasting of two shapes aligned from the right (torch semantics: sizes must be
equal or one of them 1). -/
def broadcastRev : List ℕ → List ℕ → Option (List ℕ)
  | [], t => some t
  | s, [] => some s
  | a :: s, b :: t =>
    if a = b then (broadcastRev s t).map (fun r => a :: r)
    else if a = 1 then (broadcastRev s t).map (fun r => b :: r)
    else if b = 1 then (broadcastRev s t).map (fun r => a :: r)
    else none

/-- Broadcast two shapes (torch semantics). -/
def broadcastShapes (s t : List ℕ) : Option (List ℕ) :=
  (broadcastRev s.reverse t.reverse).map List.reverse

/-- Shapes produced by unpacking torch.unbind(input, dim=0) into exactly two names:
requires the leading dimension to be exactly 2. -/
def unbind2 : List ℕ → Option (List ℕ × List ℕ)
  | n :: rest => if n = 2 then some (rest, rest) else none
  | [] => none

/-- Output shape of einsum "...li,...ijl->...lj" where the second operand has exactly
the three dimensions (i, j, l): requires the contracted channel i and the frequency l
of the first operand to match. -/
def einsumMimo (xs hs : List ℕ) : Option (List ℕ) :=
  match hs with
  | [i2, jdim, l2] =>
    match xs.reverse with
    | idim :: l1 :: brev =>
      if idim = i2 ∧ l1 = l2 then some ((jdim :: l1 :: brev).reverse) else none
    | _ => none
  | _ => none

/-- Output shape of einsum "...li,...il->...li" where the second operand has exactly
the two dimensions (i, l). -/
def einsumElem (xs hs : List ℕ) : Option (List ℕ) :=
  match hs with
  | [i2, l2] =>
    match xs.reverse with
    | idim :: l1 :: _ => if idim = i2 ∧ l1 = l2 then some xs else none
    | _ => none
  | _ => none

/-- Shape of slicing a dimension (counted from the end) down to its first m entries. -/
def sliceFromEnd (k m : ℕ) (s : List ℕ) : Option (List ℕ) := do
  let d ← dimFromEnd k s
  setFromEnd k (min d m) s

/-- Shape semantics of LTI.__call__ in mimo mode (src/models.py lines 34-59), composed
operation by operation in source order from the parameter shapes of lines 30-32. -/
def forwardShapeMimo (input_dim output_dim order : ℕ) (causal : Bool)
    (xshape : List ℕ) : Option (List ℕ) := do
  let L ← dimFromEnd 1 xshape
  let _D ← dimFromEnd 0 xshape
  let aS ← padLast 1 0 [input_dim, output_dim, order]
  let bS ← padLast 1 0 [2, input_dim, output_dim, order]
  let bF ← rfftShape L 0 bS
  let aF ← rfftShape L 0 aS
  let HtS ← broadcastShapes bF aF
  let htS ← irfftShapeN L 0 HtS
  let HS ← rfftShape (2 * L) 0 htS
  let HcHa ← unbind2 HS
  let HS1 ← broadcastShapes [input_dim, output_dim, 1] HcHa.1
  let HS2 ← if causal then pure HS1 else broadcastShapes HS1 HcHa.2
  let XS ← rfftShape (2 * L) 1 xshape
  let YS ← einsumMimo XS HS2
  let yS ← irfftShapeD 1 YS
  sliceFromEnd 1 L yS

/-- Shape semantics of LTI.__call__ in elementwise mode (parameter shapes use a single
channel axis: h0 is (D, 1), numerators (2, D, order), denumerator (D, order)). -/
def forwardShapeElem (dim_ order : ℕ) (causal : Bool) (xshape : List ℕ) :
    Option (List ℕ) := do
  let L ← dimFromEnd 1 xshape
  let _D ← dimFromEnd 0 xshape
  let aS ← padLast 1 0 [dim_, order]
  let bS ← padLast 1 0 [2, dim_, order]
  let bF ← rfftShape L 0 bS
  let aF ← rfftShape L 0 aS
  let HtS ← broadcastShapes bF aF
  let htS ← irfftShapeN L 0 HtS
  let HS ← rfftShape (2 * L) 0 htS
  let HcHa ← unbind2 HS
  let HS1 ← broadcastShapes [dim_, 1] HcHa.1
  let HS2 ← if causal then pure HS1 else broadcastShapes HS1 HcHa.2
  let XS ← rfftShape (2 * L) 1 xshape
  let YS ← einsumElem XS HS2
  let yS ← irfftShapeD 1 YS
  sliceFromEnd 1 L yS

end TorchShape

/-- Python exception classes observable in the modelled fragment of src/datasets.py. -/
inductive PyError where
  | assertionError
  | fileNotFoundError
  | valueError
  deriving DecidableEq

/-- Torch dtypes observable in the modelled fragment. -/
inductive TorchDtype where
  | float32
  | int64
  deriving DecidableEq

/-- Numpy dtypes observable in the modelled fragment. -/
inductive NpDtype where
  | uint8
  | int16
  | other
  deriving DecidableEq

/-- POSIX os.path.join of two components. -/
def joinPath (a b : String) : String := a ++ "/" ++ b

/-- Result of scipy.io.wavfile.read on one file: sample rate, the frame count
(len(waveform), the leading axis), the layout of the returned array (a mono file
yields a 1-D array of frames, channels = none; a file with c channels yields a 2-D
(frames, c) array, channels = some c), the int16 sample values indexed by
(frame, channel), and whether the stored dtype is int16. -/
structure Wav where
  sampleRate : ℕ
  numSamples : ℕ
  channels : Option ℕ
  samples : ℕ → ℕ → ℤ
  dtypeInt16 : Bool

/-- Observable filesystem and network state for the SpeechComand loader: directory
existence, glob results per directory, and the HTTP status a download would return. -/
structure SCFs where
  pathExists : String → Bool
  wavFiles : String → List Wav
  httpStatus : ℕ

/-- World for the SpeechComand constructor: the state on entry and the state that a
successful download and extraction would produce. -/
structure SCWorld where
  fs : SCFs
  extracted : SCFs

/-- One padded numpy array as appended to the data list (src/datasets.py line 42):
1-D when the file was mono, 2-D (with its shape) when it was multichannel. -/
inductive RawArray where
  | one (v : List ℤ)
  | two (nrows ncols : ℕ) (entry : ℕ → ℕ → ℤ)

/-- Shape of a raw array (numpy .shape). -/
def RawArray.dims : RawArray → List ℕ
  | .one v => [v.length]
  | .two r c _ => [r, c]

/-- Stored data of one sample after the [..., None] axis insertion and normalization:
the mono case is a (time, 1) list of single-element frames; the multichannel case
keeps its (rows, cols) extent with the trailing singleton axis. -/
inductive SampleData where
  | mono (wave : List (List ℝ))
  | multi (nrows ncols : ℕ) (entry : ℕ → ℕ → List ℝ)

/-- Shape of the stored sample tensor. -/
def SampleData.dims : SampleData → List ℕ
  | .mono w => [w.length, (w.headD []).length]
  | .multi r c e => [r, c, (e 0 0).length]

/-- One loaded audio sample: integer label and the stored tensor data. -/
structure AudioSample where
  label : ℕ
  data : SampleData

/-- Loaded audio dataset with the dtypes fixed by torch.as_tensor on lines 49-50. -/
structure AudioDataset where
  samples : List AudioSample
  dataDtype : TorchDtype
  labelDtype : TorchDtype

/-- Model of the per-file body of the loading loop (src/datasets.py lines 37-42): the
three assert statements in source order (len(waveform) is the frame count, the leading
axis, for either rank), then np.pad(waveform, (0, 16 * 1024 - waveform.shape[-1])).
For a 1-D mono array the last axis is the frame axis and padding appends zeros up to
16 * 1024 samples.  For a 2-D (frames, c) array the last axis is the channel axis, so
the pad width k = 16 * 1024 - c and the single (before, after) pair broadcasts to both
axes, yielding shape (frames + k, c + k); a negative pad width (c beyond 16 * 1024)
raises ValueError. -/
def processWav (wv : Wav) : Except PyError RawArray :=
  if wv.sampleRate ≠ 16000 then .error .assertionError
  else if ¬ wv.numSamples ≤ 16000 then .error .assertionError
  else if ¬ wv.dtypeInt16 then .error .assertionError
  else
    match wv.channels with
    | none =>
      .ok (.one ((List.range (16 * 1024)).map fun t =>
        if t < wv.numSamples then wv.samples t 0 else 0))
    | some c =>
      if 16 * 1024 < c then .error .valueError
      else
        .ok (.two (wv.numSamples + (16 * 1024 - c)) (c + (16 * 1024 - c))
          (fun r j => if r < wv.numSamples ∧ j < c then wv.samples r j else 0))

/-- Folder loop body: every file of one class folder, labelled with the folder index. -/
def processFolder (lab : ℕ) : List Wav → Except PyError (List (ℕ × RawArray))
  | [] => .ok []
  | wv :: rest =>
    match processWav wv with
    | .error e => .error e
    | .ok v =>
      match processFolder lab rest with
      | .error e => .error e
      | .ok t => .ok ((lab, v) :: t)

/-- Outer enumeration loop over the labelled class folders (src/datasets.py
lines 33-43), accumulating data and labels in order. -/
def processFolders (fs : SCFs) (path : String) :
    List (ℕ × String) → Except PyError (List (ℕ × RawArray))
  | [] => .ok []
  | (lab, word) :: rest =>
    match processFolder lab (fs.wavFiles (joinPath (joinPath path "sc09") word)) with
    | .error e => .error e
    | .ok g =>
      match processFolders fs path rest with
      | .error e => .error e
      | .ok t => .ok (g ++ t)

/-- Class folder names in enumeration order (src/datasets.py line 34). -/
def digitWords : List String :=
  ["zero", "one", "two", "three", "four", "five", "six", "seven", "eight", "nine"]

/-- Mean of a list of reals (numpy mean). -/
noncomputable def listMean (v : List ℝ) : ℝ := v.sum / v.length

/-- Standard deviation of a list of reals (numpy std, ddof = 0). -/
noncomputable def listStd (v : List ℝ) : ℝ :=
  Real.sqrt ((v.map (fun r => (r - listMean v) ^ 2)).sum / v.length)

/-- Whether np.stack succeeds on the collected arrays (src/datasets.py line 46): it
raises ValueError when the list is empty or when the array shapes are not all equal. -/
def stackOk : List (ℕ × RawArray) → Bool
  | [] => false
  | p :: rest => rest.all (fun q => q.2.dims == p.2.dims)

/-- Standardization of one raw sample (src/datasets.py lines 46-47): divide by 32768,
insert the trailing axis, then divide by the standard deviation over axis -2 of the
stacked array with keepdims.  For a stack of 1-D arrays axis -2 is the time axis (one
scalar per sample); for a stack of 2-D arrays axis -2 is the column axis (one scalar
per row), and the division broadcasts back over that axis. -/
noncomputable def normalizeSample (p : ℕ × RawArray) : AudioSample :=
  match p with
  | (lab, .one v) =>
    let u := v.map (fun z : ℤ => (z : ℝ) / 32768)
    ⟨lab, .mono (u.map (fun r => [r / listStd u]))⟩
  | (lab, .two nr nc e) =>
    ⟨lab, .multi nr nc (fun r j =>
      [((e r j : ℤ) : ℝ) / 32768 /
        listStd ((List.range nc).map (fun j2 => ((e r j2 : ℤ) : ℝ) / 32768))])⟩

namespace SpeechComand

/-- Download decision of SpeechComand.__init__ (src/datasets.py line 19): fetch if and
only if the directory path/sc09 does not exist. -/
def fetches (fs : SCFs) (path : String) : Bool :=
  !(fs.pathExists (joinPath path "sc09"))

/-- Filesystem state after the download step: extraction happens only when the fetch
was attempted and returned HTTP 200; a failed fetch is only printed. -/
def effectiveFs (world : SCWorld) (path : String) : SCFs :=
  if fetches world.fs path && (world.fs.httpStatus == 200) then world.extracted else world.fs

/-- Loading loop over all class folders (src/datasets.py lines 31-43). -/
def loadRaw (fs : SCFs) (path : String) : Except PyError (List (ℕ × RawArray)) :=
  processFolders fs path digitWords.enum

/-- Model of SpeechComand.__init__ (src/datasets.py lines 17-51): download step (which
never raises), loading loop with assertions, np.stack (which raises ValueError on an
empty sample list and on mismatched array shapes), standardization, and tensor
conversion with fixed dtypes. -/
noncomputable def init (world : SCWorld) (path : String) : Except PyError AudioDataset :=
  match loadRaw (effectiveFs world path) path with
  | .error e => .error e
  | .ok raw =>
    if stackOk raw then .ok ⟨raw.map normalizeSample, .float32, .int64⟩
    else .error .valueError

end SpeechComand

/-- Result of pickle.load on one CIFAR batch file: the uint8 data matrix (nrows, ncols),
the label list, the stored numpy dtype, and the dtype soundness invariant of numpy
arrays (a uint8 array holds values in [0, 256)). -/
structure CifarBatch where
  nrows : ℕ
  ncols : ℕ
  bytes : ℕ → ℕ → ℤ
  labels : List ℕ
  dtype : NpDtype
  dtypeSound : dtype = NpDtype.uint8 → ∀ r c, 0 ≤ bytes r c ∧ bytes r c < 256

/-- Observable filesystem and network state for the CIFAR loader. -/
structure CifarFS where
  pathExists : String → Bool
  fileAt : String → Option CifarBatch
  httpStatus : ℕ

/-- World for the CIFAR constructor: state on entry and state after a successful
download and extraction. -/
structure CifarWorld where
  fs : CifarFS
  extracted : CifarFS

/-- Loaded CIFAR dataset: images as (3, 32, 32) tensors, labels, fixed dtypes. -/
structure CifarData where
  images : List (Fin 3 → Fin 32 → Fin 32 → ℝ)
  labels : List ℕ
  dataDtype : TorchDtype
  labelDtype : TorchDtype

namespace CIFAR10Dataset

/-- Path of one batch file opened by the loading loop (src/datasets.py line 75).  The
source joins the literal "data" with "cifar-10-batches-py", ignoring the path argument
of the constructor; the unused parameter records that fact. -/
def batchFilePath (path : String) (idx : ℕ) : String :=
  joinPath (joinPath "data" "cifar-10-batches-py") ("data_batch_" ++ toString idx)

/-- Download decision of CIFAR10Dataset.__init__ (src/datasets.py line 60): fetch if
and only if the directory path/cifar10 does not exist. -/
def fetches (fs : CifarFS) (path : String) : Bool :=
  !(fs.pathExists (joinPath path "cifar10"))

/-- Filesystem state after the download step (extraction only on HTTP 200). -/
def effectiveFs (world : CifarWorld) (path : String) : CifarFS :=
  if fetches world.fs path && (world.fs.httpStatus == 200) then world.extracted else world.fs

/-- Model of the three assert statements on one batch (src/datasets.py lines 77-79),
in source order. -/
def checkBatch (b : CifarBatch) : Except PyError Unit :=
  if b.dtype ≠ NpDtype.uint8 then .error .assertionError
  else if ¬ (b.nrows = 10000 ∧ b.ncols = 3072) then .error .assertionError
  else if b.labels.length ≠ 10000 then .error .assertionError
  else .ok ()

/-- Loading loop over the batch indices (src/datasets.py lines 74-81): opening a
missing file raises FileNotFoundError, then the assertions run per batch. -/
def loadBatches (fs : CifarFS) (path : String) :
    List ℕ → Except PyError (List CifarBatch)
  | [] => .ok []
  | idx :: rest =>
    match fs.fileAt (batchFilePath path idx) with
    | none => .error .fileNotFoundError
    | some b =>
      match checkBatch b with
      | .error e => .error e
      | .ok _ =>
        match loadBatches fs path rest with
        | .error e => .error e
        | .ok t => .ok (b :: t)

/-- Images of one batch after reshape(-1, 3, 32, 32) and division by 255.0
(src/datasets.py lines 80 and 84): row-major reshape of each 3072-byte row. -/
noncomputable def batchImages (b : CifarBatch) : List (Fin 3 → Fin 32 → Fin 32 → ℝ) :=
  (List.range b.nrows).map fun r =>
    fun c i j => ((b.bytes r ((c : ℕ) * 1024 + (i : ℕ) * 32 + (j : ℕ)) : ℤ) : ℝ) / 255

/-- Loading and conversion steps of CIFAR10Dataset.__init__ (src/datasets.py
lines 71-88). -/
noncomputable def load (fs : CifarFS) (path : String) : Except PyError CifarData :=
  match loadBatches fs path [1, 2, 3, 4, 5] with
  | .error e => .error e
  | .ok bs => .ok ⟨(bs.map batchImages).flatten, (bs.map (fun b => b.labels)).flatten,
      .float32, .int64⟩

/-- Model of CIFAR10Dataset.__init__ (src/datasets.py lines 58-88): download step
(which never raises), then the loading and conversion steps. -/
noncomputable def init (world : CifarWorld) (path : String) : Except PyError CifarData :=
  load (effectiveFs world path) path

end CIFAR10Dataset

/-- Concrete filesystem in which the directory consumed by the CIFAR loading loop,
data/cifar-10-batches-py, is present and nothing else exists. -/
def cifarFs6 : CifarFS :=
  ⟨fun p => p == "data/cifar-10-batches-py", fun _ => none, 200⟩

/-- Concrete world with nothing on disk and a failing (HTTP 404) download. -/
def scWorld7 : SCWorld :=
  ⟨⟨fun _ => false, fun _ => [], 404⟩, ⟨fun _ => false, fun _ => [], 404⟩⟩

/-- Concrete CIFAR world with nothing on disk and a failing (HTTP 404) download. -/
def cifarWorld7 : CifarWorld :=
  ⟨⟨fun _ => false, fun _ => none, 404⟩, ⟨fun _ => false, fun _ => none, 404⟩⟩

/-- Concrete mono wav file passing all assertions (16 kHz, 16000 frames, 1-D, int16). -/
def wavW : Wav := ⟨16000, 16000, none, fun _ _ => 0, true⟩

/-- Concrete SpeechComand world: dataset already on disk, one wav in the zero folder. -/
def scWorldW : SCWorld :=
  ⟨⟨fun _ => true, fun d => if d = "data/sc09/zero" then [wavW] else [], 200⟩,
   ⟨fun _ => true, fun _ => [], 200⟩⟩

/-- Dataset produced by the SpeechComand constructor on scWorldW. -/
noncomputable def audioDsW : AudioDataset :=
  (SpeechComand.init scWorldW "data").toOption.getD ⟨[], .float32, .int64⟩

/-- Concrete stereo wav file: 16 kHz, one frame, two channels, int16.  It passes all
three assertions (len gives the frame count, the dtype is int16). -/
def wavX : Wav := ⟨16000, 1, some 2, fun _ _ => 0, true⟩

/-- Concrete SpeechComand world: dataset on disk, one stereo wav in the zero folder. -/
def scWorldX : SCWorld :=
  ⟨⟨fun _ => true, fun d => if d = "data/sc09/zero" then [wavX] else [], 200⟩,
   ⟨fun _ => true, fun _ => [], 200⟩⟩

/-- Dataset produced by the SpeechComand constructor on scWorldX. -/
noncomputable def audioDsX : AudioDataset :=
  (SpeechComand.init scWorldX "data").toOption.getD ⟨[], .float32, .int64⟩

/-- Concrete CIFAR batch passing all assertions. -/
def cifarBatchW : CifarBatch :=
  ⟨10000, 3072, fun _ _ => 0, List.replicate 10000 0, .uint8,
   fun _ _ _ => ⟨le_refl 0, by norm_num⟩⟩

/-- Concrete CIFAR world: batches on disk for every path, no download needed. -/
def cifarWorldW : CifarWorld :=
  ⟨⟨fun _ => true, fun _ => some cifarBatchW, 200⟩,
   ⟨fun _ => true, fun _ => none, 200⟩⟩

/-- Dataset produced by the CIFAR constructor on cifarWorldW. -/
noncomputable def cifarDataW : CifarData :=
  ⟨((List.replicate 5 cifarBatchW).map CIFAR10Dataset.batchImages).flatten,
   ((List.replicate 5 cifarBatchW).map (fun b => b.labels)).flatten, .float32, .int64⟩

namespace DFT

theorem w_ne_zero (N : ℕ) : w N ≠ 0 := Complex.exp_ne_zero _

theorem isPrimitiveRoot_w (N : ℕ) (hN : N ≠ 0) : IsPrimitiveRoot (w N) N :=
  Complex.isPrimitiveRoot_exp N hN

theorem w_pow_self (N : ℕ) (hN : N ≠ 0) : w N ^ N = 1 :=
  (isPrimitiveRoot_w N hN).pow_eq_one

theorem conj_w (N : ℕ) : (starRingEnd ℂ) (w N) = (w N)⁻¹ := by
  rw [w, ← Complex.exp_conj, ← Complex.exp_neg]
  congr 1
  simp only [map_div₀, map_mul, map_ofNat, Complex.conj_I, Complex.conj_ofReal,
    Complex.conj_natCast]
  ring

/-- Small integer multiples of N divide evidence: an integer multiple of N strictly
between -N and N is zero. -/
theorem int_dvd_small {N : ℕ} {d : ℤ} (hdvd : (N : ℤ) ∣ d) (h1 : -(N : ℤ) < d)
    (h2 : d < (N : ℤ)) : d = 0 := by
  refine Int.eq_zero_of_abs_lt_dvd hdvd ?_
  rcases abs_cases d with ⟨he, _⟩ | ⟨he, _⟩ <;> omega

/-- Orthogonality of the root-of-unity characters: summing w N to the powers m * k over
k < N gives N when N divides m and zero otherwise. -/
theorem sum_w_zpow (N : ℕ) (hN : N ≠ 0) (m : ℤ) :
    ∑ k ∈ range N, (w N) ^ (m * (k : ℤ)) = if (N : ℤ) ∣ m then (N : ℂ) else 0 := by
  have hprim := isPrimitiveRoot_w N hN
  have hz : ∀ k : ℕ, (w N) ^ (m * (k : ℤ)) = ((w N) ^ m) ^ k := by
    intro k
    rw [zpow_mul, zpow_natCast]
  by_cases hdvd : (N : ℤ) ∣ m
  · have hone : (w N) ^ m = 1 := (hprim.zpow_eq_one_iff_dvd m).mpr hdvd
    simp [hz, hone, hdvd]
  · have hne : (w N) ^ m ≠ 1 := fun hone => hdvd ((hprim.zpow_eq_one_iff_dvd m).mp hone)
    have hgeom := geom_sum_eq hne N
    have hpow : ((w N) ^ m) ^ N = 1 := by
      rw [← zpow_natCast ((w N) ^ m) N, ← zpow_mul, mul_comm, zpow_mul, zpow_natCast,
        w_pow_self N hN, one_zpow]
    simp only [hz, hgeom, hpow, sub_self, zero_div, hdvd, if_false]

/-- Combined character: the product of an inverse power and a direct power of w N is a
single integer power. -/
theorem w_inv_pow_mul_pow (N : ℕ) (a b k : ℕ) :
    (w N)⁻¹ ^ (a * k) * w N ^ (b * k) = (w N) ^ (((b : ℤ) - a) * (k : ℤ)) := by
  have hw := w_ne_zero N
  rw [inv_pow, ← zpow_natCast (w N) (a * k), ← zpow_natCast (w N) (b * k), ← zpow_neg]
  rw [← zpow_add₀ hw]
  congr 1
  push_cast
  ring

/-- Fourier inversion for the full transform: the inverse transform of the forward
transform recovers the signal at every index below N. -/
theorem idft_dft (N : ℕ) (hN : N ≠ 0) (x : ℕ → ℂ) (j : ℕ) (hj : j < N) :
    idft N (dft N x) j = x j := by
  unfold idft dft
  have hswap :
      ∑ k ∈ range N, (∑ a ∈ range N, x a * (w N)⁻¹ ^ (a * k)) * w N ^ (j * k)
        = ∑ a ∈ range N, x a * ∑ k ∈ range N, (w N) ^ (((j : ℤ) - a) * (k : ℤ)) := by
    calc ∑ k ∈ range N, (∑ a ∈ range N, x a * (w N)⁻¹ ^ (a * k)) * w N ^ (j * k)
        = ∑ k ∈ range N, ∑ a ∈ range N, x a * ((w N)⁻¹ ^ (a * k) * w N ^ (j * k)) := by
          refine Finset.sum_congr rfl fun k _ => ?_
          rw [Finset.sum_mul]
          exact Finset.sum_congr rfl fun a _ => by ring
      _ = ∑ a ∈ range N, ∑ k ∈ range N, x a * ((w N)⁻¹ ^ (a * k) * w N ^ (j * k)) :=
          Finset.sum_comm
      _ = ∑ a ∈ range N, x a * ∑ k ∈ range N, (w N) ^ (((j : ℤ) - a) * (k : ℤ)) := by
          refine Finset.sum_congr rfl fun a _ => ?_
          rw [Finset.mul_sum]
          exact Finset.sum_congr rfl fun k _ => by rw [w_inv_pow_mul_pow N a j k]
  rw [hswap]
  have hterm : ∀ a ∈ range N,
      x a * ∑ k ∈ range N, (w N) ^ (((j : ℤ) - a) * (k : ℤ))
        = if a = j then x a * N else 0 := by
    intro a ha
    rw [sum_w_zpow N hN ((j : ℤ) - a)]
    by_cases hstatus : a = j
    · subst hstatus
      simp
    · have hnd : ¬ ((N : ℤ) ∣ (j : ℤ) - a) := by
        intro hdvd
        have hmem := Finset.mem_range.mp ha
        have : (j : ℤ) - a = 0 := int_dvd_small hdvd (by omega) (by omega)
        omega
      simp [hnd, hstatus]
  rw [Finset.sum_congr rfl hterm, Finset.sum_ite_eq' (range N) j (fun a => x a * N)]
  have hNne : (N : ℂ) ≠ 0 := Nat.cast_ne_zero.mpr hN
  simp only [Finset.mem_range.mpr hj, if_true]
  rw [mul_comm (x j) ((N : ℂ)), ← mul_assoc, inv_mul_cancel₀ hNne, one_mul]

end DFT

namespace DFT

theorem conj_inv_w_pow (N m : ℕ) : (starRingEnd ℂ) ((w N)⁻¹ ^ m) = w N ^ m := by
  rw [map_pow, map_inv₀, conj_w, inv_inv]

theorem conj_w_pow (N m : ℕ) : (starRingEnd ℂ) (w N ^ m) = (w N)⁻¹ ^ m := by
  rw [map_pow, conj_w]

/-- Character identity used for mirror bins: for k at most n, the direct power at the
mirror bin n - k equals the inverse power at bin k. -/
theorem w_pow_mirror (n : ℕ) (hn : n ≠ 0) (j k : ℕ) (hk : k ≤ n) :
    w n ^ (j * (n - k)) = (w n)⁻¹ ^ (j * k) := by
  have hw := w_ne_zero n
  have hcast : ((j * (n - k) : ℕ) : ℤ) = (j : ℤ) * n + -((j : ℤ) * k) := by
    push_cast [Nat.cast_sub hk]
    ring
  rw [← zpow_natCast (w n) (j * (n - k)), hcast, zpow_add₀ hw, zpow_neg]
  have hjn : w n ^ ((j : ℤ) * (n : ℤ)) = 1 := by
    rw [mul_comm, zpow_mul, zpow_natCast (w n) n, w_pow_self n hn, one_zpow]
  rw [hjn, one_mul, inv_pow]
  norm_cast

/-- Conjugate symmetry of the transform of a real signal: the mirror bin carries the
conjugate value. -/
theorem conjSym_rfft (n : ℕ) (hn : n ≠ 0) (x : ℕ → ℝ) : ConjSym n (rfft n x) := by
  intro k _ hk
  unfold rfft dft
  rw [map_sum]
  refine Finset.sum_congr rfl fun j _ => ?_
  rw [map_mul, Complex.conj_ofReal, conj_inv_w_pow, w_pow_mirror n hn j k (le_of_lt hk)]

theorem conjSym_const (n : ℕ) (c : ℝ) : ConjSym n (fun _ => (c : ℂ)) := by
  intro k _ _
  exact Complex.conj_ofReal c

theorem conjSym_add {n : ℕ} {F G : ℕ → ℂ} (hF : ConjSym n F) (hG : ConjSym n G) :
    ConjSym n (fun k => F k + G k) := by
  intro k hk hkn
  rw [map_add, hF k hk hkn, hG k hk hkn]

theorem conjSym_mul {n : ℕ} {F G : ℕ → ℂ} (hF : ConjSym n F) (hG : ConjSym n G) :
    ConjSym n (fun k => F k * G k) := by
  intro k hk hkn
  rw [map_mul, hF k hk hkn, hG k hk hkn]

theorem conjSym_conj {n : ℕ} {F : ℕ → ℂ} (hF : ConjSym n F) :
    ConjSym n (fun k => (starRingEnd ℂ) (F k)) := by
  intro k hk hkn
  have h := hF k hk hkn
  rw [Complex.conj_conj]
  calc F (n - k) = (starRingEnd ℂ) ((starRingEnd ℂ) (F (n - k))) := (Complex.conj_conj _).symm
    _ = (starRingEnd ℂ) (F k) := by rw [h]

theorem conjSym_sum {n : ℕ} {ι : Type} (s : Finset ι) (F : ι → ℕ → ℂ)
    (h : ∀ i ∈ s, ConjSym n (F i)) : ConjSym n (fun k => ∑ i ∈ s, F i k) := by
  intro k hk hkn
  rw [map_sum]
  exact Finset.sum_congr rfl fun i hi => h i hi k hk hkn

/-- On a conjugate-symmetric spectrum the Hermitian extension is the identity below n. -/
theorem hermExt_eq_of_conjSym {n : ℕ} {F : ℕ → ℂ} (h : ConjSym n F) {k : ℕ}
    (hk : k < n) : hermExt n F k = F k := by
  unfold hermExt
  split
  · rfl
  · next hhalf => exact h k (by omega) hk

/-- The inverse real transform of a conjugate-symmetric spectrum is the real component
of the plain inverse transform. -/
theorem irfft_eq_re_idft {n : ℕ} {F : ℕ → ℂ} (h : ConjSym n F) (j : ℕ) :
    irfft n F j = (idft n F j).re := by
  unfold irfft idft
  congr 2
  refine Finset.sum_congr rfl fun k hk => ?_
  rw [hermExt_eq_of_conjSym h (Finset.mem_range.mp hk)]

theorem hermExt_add (n : ℕ) (F G : ℕ → ℂ) (k : ℕ) :
    hermExt n (fun k => F k + G k) k = hermExt n F k + hermExt n G k := by
  unfold hermExt
  split
  · rfl
  · rw [map_add]

theorem irfft_add (n : ℕ) (F G : ℕ → ℂ) (j : ℕ) :
    irfft n (fun k => F k + G k) j = irfft n F j + irfft n G j := by
  unfold irfft idft
  rw [← Complex.add_re, ← mul_add, ← Finset.sum_add_distrib]
  congr 2
  refine Finset.sum_congr rfl fun k _ => ?_
  rw [hermExt_add, add_mul]

theorem irfft_zero_fun (n : ℕ) (j : ℕ) : irfft n (fun _ => 0) j = 0 := by
  unfold irfft idft hermExt
  simp

theorem irfft_congr (n : ℕ) {F G : ℕ → ℂ} (h : ∀ k, F k = G k) (j : ℕ) :
    irfft n F j = irfft n G j := by
  have : F = G := funext h
  rw [this]

theorem irfft_sum (n : ℕ) {ι : Type} (s : Finset ι) (F : ι → ℕ → ℂ) (j : ℕ) :
    irfft n (fun k => ∑ i ∈ s, F i k) j = ∑ i ∈ s, irfft n (F i) j := by
  classical
  induction s using Finset.induction with
  | empty => simp [irfft_zero_fun]
  | insert hnotmem ih =>
    next a s =>
      rw [Finset.sum_insert hnotmem]
      rw [irfft_congr n (fun k => Finset.sum_insert hnotmem) j, irfft_add, ih]

end DFT

open DFT

theorem rfft_zero_fun (n k : ℕ) : rfft n (fun _ => 0) k = 0 := by
  simp [rfft, dft]

/-- Pulling a constant factor out of the inverse transform. -/
theorem idft_mul_const (n : ℕ) (F : ℕ → ℂ) (c : ℂ) (t : ℕ) :
    idft n (fun k => F k * c) t = c * idft n F t := by
  unfold idft
  have hsum : ∑ k ∈ range n, (F k * c) * w n ^ (t * k)
      = c * ∑ k ∈ range n, F k * w n ^ (t * k) := by
    rw [Finset.mul_sum]
    exact Finset.sum_congr rfl fun k _ => by ring
  rw [hsum]
  ring

/-- Multiplying the spectrum of a real signal by a real constant scales the signal:
the h0 direct term of the transfer function acts pointwise on the input. -/
theorem irfft_rfft_mul_const (n : ℕ) (hn : n ≠ 0) (p : ℕ → ℝ) (c : ℝ) (t : ℕ)
    (ht : t < n) :
    irfft n (fun k => rfft n p k * ((c : ℝ) : ℂ)) t = c * p t := by
  have hsym : ConjSym n (fun k => rfft n p k * ((c : ℝ) : ℂ)) :=
    conjSym_mul (conjSym_rfft n hn p) (conjSym_const n c)
  rw [irfft_eq_re_idft hsym, idft_mul_const]
  have hinv : idft n (rfft n p) t = ((p t : ℝ) : ℂ) := by
    unfold rfft
    exact idft_dft n hn _ t ht
  rw [hinv, ← Complex.ofReal_mul, Complex.ofReal_re]

/-- Congruence between the residue condition modulo N and integer divisibility. -/
theorem mod_eq_iff_int_dvd (N a b t : ℕ) (ht : t < N) :
    ((a + b) % N = t) ↔ (N : ℤ) ∣ (t : ℤ) - ((a + b : ℕ) : ℤ) := by
  rw [← Nat.modEq_iff_dvd]
  unfold Nat.ModEq
  rw [Nat.mod_eq_of_lt ht]

/-- Inverse transform of a product of two forward transforms: the circular-convolution
double sum (each pair (a, b) with a + b congruent to t modulo N contributes). -/
theorem idft_dft_mul_dft (N : ℕ) (hN : N ≠ 0) (P Q : ℕ → ℂ) (t : ℕ) (ht : t < N) :
    idft N (fun k => dft N P k * dft N Q k) t
      = ∑ a ∈ range N, ∑ b ∈ range N, (if (a + b) % N = t then P a * Q b else 0) := by
  unfold idft dft
  have hker : ∀ k,
      (∑ a ∈ range N, P a * (w N)⁻¹ ^ (a * k)) * (∑ b ∈ range N, Q b * (w N)⁻¹ ^ (b * k))
          * w N ^ (t * k)
        = ∑ a ∈ range N, ∑ b ∈ range N,
            P a * Q b * (w N) ^ (((t : ℤ) - ((a + b : ℕ) : ℤ)) * (k : ℤ)) := by
    intro k
    rw [Finset.sum_mul_sum, Finset.sum_mul]
    refine Finset.sum_congr rfl fun a _ => ?_
    rw [Finset.sum_mul]
    refine Finset.sum_congr rfl fun b _ => ?_
    have hchar : (w N)⁻¹ ^ (a * k) * (w N)⁻¹ ^ (b * k) * w N ^ (t * k)
        = (w N) ^ (((t : ℤ) - ((a + b : ℕ) : ℤ)) * (k : ℤ)) := by
      rw [← pow_add]
      have hexp : a * k + b * k = (a + b) * k := by ring
      rw [hexp, w_inv_pow_mul_pow N (a + b) t k]
    calc P a * (w N)⁻¹ ^ (a * k) * (Q b * (w N)⁻¹ ^ (b * k)) * w N ^ (t * k)
        = P a * Q b * ((w N)⁻¹ ^ (a * k) * (w N)⁻¹ ^ (b * k) * w N ^ (t * k)) := by ring
      _ = P a * Q b * (w N) ^ (((t : ℤ) - ((a + b : ℕ) : ℤ)) * (k : ℤ)) := by rw [hchar]
  rw [Finset.sum_congr rfl fun k _ => hker k]
  rw [Finset.sum_comm]
  have hinner : ∀ a ∈ range N,
      ∑ k ∈ range N, ∑ b ∈ range N,
          P a * Q b * (w N) ^ (((t : ℤ) - ((a + b : ℕ) : ℤ)) * (k : ℤ))
        = ∑ b ∈ range N, P a * Q b *
            (if (N : ℤ) ∣ (t : ℤ) - ((a + b : ℕ) : ℤ) then (N : ℂ) else 0) := by
    intro a _
    rw [Finset.sum_comm]
    refine Finset.sum_congr rfl fun b _ => ?_
    rw [← Finset.mul_sum, sum_w_zpow N hN ((t : ℤ) - ((a + b : ℕ) : ℤ))]
  rw [Finset.sum_congr rfl hinner, Finset.mul_sum]
  refine Finset.sum_congr rfl fun a _ => ?_
  rw [Finset.mul_sum]
  refine Finset.sum_congr rfl fun b _ => ?_
  by_cases hc : (a + b) % N = t
  · rw [if_pos ((mod_eq_iff_int_dvd N a b t ht).mp hc), if_pos hc]
    have hNne : (N : ℂ) ≠ 0 := Nat.cast_ne_zero.mpr hN
    field_simp
  · rw [if_neg (fun hdvd => hc ((mod_eq_iff_int_dvd N a b t ht).mpr hdvd)), if_neg hc]
    rw [mul_zero, mul_zero]

/-- Real form of the convolution identity for the modelled rfft and irfft pair. -/
theorem irfft_rfft_mul_rfft (n : ℕ) (hn : n ≠ 0) (p q : ℕ → ℝ) (t : ℕ) (ht : t < n) :
    irfft n (fun k => rfft n p k * rfft n q k) t
      = ∑ a ∈ range n, ∑ b ∈ range n, (if (a + b) % n = t then p a * q b else 0) := by
  have hsym : ConjSym n (fun k => rfft n p k * rfft n q k) :=
    conjSym_mul (conjSym_rfft n hn p) (conjSym_rfft n hn q)
  rw [irfft_eq_re_idft hsym]
  unfold rfft
  rw [idft_dft_mul_dft n hn _ _ t ht, Complex.re_sum]
  refine Finset.sum_congr rfl fun a _ => ?_
  rw [Complex.re_sum]
  refine Finset.sum_congr rfl fun b _ => ?_
  by_cases hc : (a + b) % n = t
  · rw [if_pos hc, if_pos hc, ← Complex.ofReal_mul, Complex.ofReal_re]
  · rw [if_neg hc, if_neg hc, Complex.zero_re]

/-- Residues below 2m of a sum of two numbers below m each: the representative is
either the sum itself or the sum minus the modulus. -/
theorem mod_two_cases {m a b u : ℕ} (hm : m ≠ 0) (h : (a + b) % m = u) (ha : a < m)
    (hb : b < m) : a + b = u ∨ a + b = u + m := by
  have hd := Nat.div_add_mod (a + b) m
  have hq2 : (a + b) / m < 2 :=
    (Nat.div_lt_iff_lt_mul (Nat.pos_of_ne_zero hm)).mpr (by omega)
  have hq : (a + b) / m = 0 ∨ (a + b) / m = 1 := by
    have hle : (a + b) / m ≤ 1 := Nat.lt_succ_iff.mp hq2
    rcases Nat.eq_zero_or_pos ((a + b) / m) with h0 | hpos
    · exact Or.inl h0
    · exact Or.inr (le_antisymm hle hpos)
  rcases hq with h0 | h1
  · left
    rw [h0, Nat.mul_zero, Nat.zero_add, h] at hd
    omega
  · right
    rw [h1, Nat.mul_one, h] at hd
    omega

theorem bCoeff_order0 (nu : ℕ → ℝ) : LTI.bCoeff 0 nu = fun _ => 0 := by
  funext t
  cases t with
  | zero => simp [LTI.bCoeff]
  | succ s => simp [LTI.bCoeff]

theorem Htrunc_order0 (L : ℕ) (nu den : ℕ → ℝ) (k : ℕ) : LTI.Htrunc L 0 nu den k = 0 := by
  unfold LTI.Htrunc
  rw [bCoeff_order0, rfft_zero_fun]
  exact zero_div _

theorem htrunc_order0 (L : ℕ) (nu den : ℕ → ℝ) (t : ℕ) : LTI.htrunc L 0 nu den t = 0 := by
  unfold LTI.htrunc
  rw [irfft_congr L (fun k => Htrunc_order0 L nu den k) t, irfft_zero_fun]

theorem Hpad_order0 (L : ℕ) (nu den : ℕ → ℝ) (k : ℕ) : LTI.Hpad L 0 nu den k = 0 := by
  unfold LTI.Hpad
  have hcut : cut L (LTI.htrunc L 0 nu den) = fun _ => 0 := by
    funext t
    unfold cut
    rw [htrunc_order0]
    simp
  rw [hcut, rfft_zero_fun]

theorem Hfreq_order0 (L : ℕ) (causal : Bool) (c : ℝ) (n0 n1 den : ℕ → ℝ) (k : ℕ) :
    LTI.Hfreq L 0 causal c n0 n1 den k = ((c : ℝ) : ℂ) := by
  unfold LTI.Hfreq
  cases causal <;> simp [Hpad_order0]

/-- With order zero the mimo forward pass reduces to the h0 channel mixing of the
input, at every kept output position. -/
theorem call_order0 (Din Dout : ℕ) (causal : Bool) (h0 : Fin Din → Fin Dout → ℝ)
    (num : Fin 2 → Fin Din → Fin Dout → ℕ → ℝ) (den : Fin Din → Fin Dout → ℕ → ℝ)
    (L : ℕ) (x : ℕ → Fin Din → ℝ) (t : ℕ) (ht : t < L) (j : Fin Dout) :
    LTI.call Din Dout 0 causal h0 num den L x t j = ∑ i, h0 i j * x t i := by
  unfold LTI.call
  rw [if_pos ht]
  have h2L : 2 * L ≠ 0 := by omega
  have hint : ∀ k,
      (∑ i, rfft (2 * L) (cut L (fun s => x s i)) k *
        LTI.Hfreq L 0 causal (h0 i j) (num 0 i j) (num 1 i j) (den i j) k)
      = ∑ i, rfft (2 * L) (cut L (fun s => x s i)) k * ((h0 i j : ℝ) : ℂ) := fun k =>
    Finset.sum_congr rfl fun i _ => by rw [Hfreq_order0]
  rw [irfft_congr (2 * L) hint t, irfft_sum]
  refine Finset.sum_congr rfl fun i _ => ?_
  rw [irfft_rfft_mul_const (2 * L) h2L _ _ t (by omega)]
  have hcut : cut L (fun s => x s i) t = x t i := by
    unfold cut
    rw [if_pos ht]
  rw [hcut]

/-- Elementwise analogue of call_order0. -/
theorem callElem_order0 (D : ℕ) (causal : Bool) (h0 : Fin D → ℝ)
    (num : Fin 2 → Fin D → ℕ → ℝ) (den : Fin D → ℕ → ℝ)
    (L : ℕ) (x : ℕ → Fin D → ℝ) (t : ℕ) (ht : t < L) (i : Fin D) :
    LTI.callElem D 0 causal h0 num den L x t i = h0 i * x t i := by
  unfold LTI.callElem
  rw [if_pos ht]
  have h2L : 2 * L ≠ 0 := by omega
  have hint : ∀ k,
      rfft (2 * L) (cut L (fun s => x s i)) k *
        LTI.Hfreq L 0 causal (h0 i) (num 0 i) (num 1 i) (den i) k
      = rfft (2 * L) (cut L (fun s => x s i)) k * ((h0 i : ℝ) : ℂ) := fun k => by
    rw [Hfreq_order0]
  rw [irfft_congr (2 * L) hint t, irfft_rfft_mul_const (2 * L) h2L _ _ t (by omega)]
  have hcut : cut L (fun s => x s i) t = x t i := by
    unfold cut
    rw [if_pos ht]
  rw [hcut]

/-- Causality of the scalar frequency-domain pipeline: when the two inputs agree up to
time t, the direct-plus-causal-kernel output agrees at every kept time u at most t. -/
theorem irfft_causal_congr (L : ℕ) (c : ℝ) (g p p2 : ℕ → ℝ) (t u : ℕ)
    (hu : u ≤ t) (huL : u < L) (hagree : ∀ s, s ≤ t → p s = p2 s) :
    irfft (2 * L) (fun k => rfft (2 * L) (cut L p) k *
        (((c : ℝ) : ℂ) + rfft (2 * L) (cut L g) k)) u
      = irfft (2 * L) (fun k => rfft (2 * L) (cut L p2) k *
        (((c : ℝ) : ℂ) + rfft (2 * L) (cut L g) k)) u := by
  have h2L : 2 * L ≠ 0 := by omega
  have hu2L : u < 2 * L := by omega
  have hsplit : ∀ (q : ℕ → ℝ) (k : ℕ),
      rfft (2 * L) (cut L q) k * (((c : ℝ) : ℂ) + rfft (2 * L) (cut L g) k)
        = rfft (2 * L) (cut L q) k * ((c : ℝ) : ℂ)
          + rfft (2 * L) (cut L q) k * rfft (2 * L) (cut L g) k := fun q k => by ring
  rw [irfft_congr (2 * L) (hsplit p) u, irfft_congr (2 * L) (hsplit p2) u,
    irfft_add, irfft_add,
    irfft_rfft_mul_const (2 * L) h2L _ c u hu2L,
    irfft_rfft_mul_const (2 * L) h2L _ c u hu2L,
    irfft_rfft_mul_rfft (2 * L) h2L _ _ u hu2L,
    irfft_rfft_mul_rfft (2 * L) h2L _ _ u hu2L]
  have hcutu : cut L p u = cut L p2 u := by
    unfold cut
    rw [if_pos huL, if_pos huL, hagree u hu]
  rw [hcutu]
  congr 1
  refine Finset.sum_congr rfl fun a ha => ?_
  refine Finset.sum_congr rfl fun b hb => ?_
  by_cases hcond : (a + b) % (2 * L) = u
  · rw [if_pos hcond, if_pos hcond]
    by_cases hbL : b < L
    · rcases mod_two_cases h2L hcond (Finset.mem_range.mp ha) (Finset.mem_range.mp hb)
        with hs | hs
      · have haL : a < L := by omega
        have hcuta : cut L p a = cut L p2 a := by
          unfold cut
          rw [if_pos haL, if_pos haL, hagree a (by omega)]
        rw [hcuta]
      · have haL : ¬ a < L := by omega
        have hpa : cut L p a = 0 := by
          unfold cut
          rw [if_neg haL]
        have hpa2 : cut L p2 a = 0 := by
          unfold cut
          rw [if_neg haL]
        rw [hpa, hpa2]
    · have hgb : cut L g b = 0 := by
        unfold cut
        rw [if_neg hbL]
      rw [hgb, mul_zero, mul_zero]
  · rw [if_neg hcond, if_neg hcond]

/-- Causality of the mimo forward pass at the call level. -/
theorem call_causal_core (Din Dout order : ℕ)
    (h0 : Fin Din → Fin Dout → ℝ) (num : Fin 2 → Fin Din → Fin Dout → ℕ → ℝ)
    (den : Fin Din → Fin Dout → ℕ → ℝ) (L : ℕ) (x x2 : ℕ → Fin Din → ℝ) (t : ℕ)
    (hagree : ∀ s, s ≤ t → ∀ i, x s i = x2 s i) (u : ℕ) (hu : u ≤ t) (j : Fin Dout) :
    LTI.call Din Dout order true h0 num den L x u j
      = LTI.call Din Dout order true h0 num den L x2 u j := by
  unfold LTI.call
  by_cases huL : u < L
  · rw [if_pos huL, if_pos huL, irfft_sum, irfft_sum]
    refine Finset.sum_congr rfl fun i _ => ?_
    have hH : ∀ k, LTI.Hfreq L order true (h0 i j) (num 0 i j) (num 1 i j) (den i j) k
        = ((h0 i j : ℝ) : ℂ) +
            rfft (2 * L) (cut L (LTI.htrunc L order (num 0 i j) (den i j))) k := by
      intro k
      unfold LTI.Hfreq LTI.Hpad
      rw [if_pos rfl]
    have hHeq : ∀ (p : ℕ → Fin Din → ℝ) (k : ℕ),
        rfft (2 * L) (cut L (fun s => p s i)) k *
          LTI.Hfreq L order true (h0 i j) (num 0 i j) (num 1 i j) (den i j) k
        = rfft (2 * L) (cut L (fun s => p s i)) k *
          (((h0 i j : ℝ) : ℂ) +
            rfft (2 * L) (cut L (LTI.htrunc L order (num 0 i j) (den i j))) k) := by
      intro p k
      rw [hH k]
    rw [irfft_congr (2 * L) (hHeq x) u, irfft_congr (2 * L) (hHeq x2) u]
    exact irfft_causal_congr L (h0 i j) (LTI.htrunc L order (num 0 i j) (den i j))
      (fun s => x s i) (fun s => x2 s i) t u hu huL (fun s hs => hagree s hs i)
  · rw [if_neg huL, if_neg huL]

/-- Causality of the elementwise forward pass at the call level. -/
theorem callElem_causal_core (D order : ℕ)
    (h0 : Fin D → ℝ) (num : Fin 2 → Fin D → ℕ → ℝ) (den : Fin D → ℕ → ℝ)
    (L : ℕ) (x x2 : ℕ → Fin D → ℝ) (t : ℕ)
    (hagree : ∀ s, s ≤ t → ∀ i, x s i = x2 s i) (u : ℕ) (hu : u ≤ t) (i : Fin D) :
    LTI.callElem D order true h0 num den L x u i
      = LTI.callElem D order true h0 num den L x2 u i := by
  unfold LTI.callElem
  by_cases huL : u < L
  · rw [if_pos huL, if_pos huL]
    have hH : ∀ k, LTI.Hfreq L order true (h0 i) (num 0 i) (num 1 i) (den i) k
        = ((h0 i : ℝ) : ℂ) +
            rfft (2 * L) (cut L (LTI.htrunc L order (num 0 i) (den i))) k := by
      intro k
      unfold LTI.Hfreq LTI.Hpad
      rw [if_pos rfl]
    have hHeq : ∀ (p : ℕ → Fin D → ℝ) (k : ℕ),
        rfft (2 * L) (cut L (fun s => p s i)) k *
          LTI.Hfreq L order true (h0 i) (num 0 i) (num 1 i) (den i) k
        = rfft (2 * L) (cut L (fun s => p s i)) k *
          (((h0 i : ℝ) : ℂ) +
            rfft (2 * L) (cut L (LTI.htrunc L order (num 0 i) (den i))) k) := by
      intro p k
      rw [hH k]
    rw [irfft_congr (2 * L) (hHeq x) u, irfft_congr (2 * L) (hHeq x2) u]
    exact irfft_causal_congr L (h0 i) (LTI.htrunc L order (num 0 i) (den i))
      (fun s => x s i) (fun s => x2 s i) t u hu huL (fun s hs => hagree s hs i)
  · rw [if_neg huL, if_neg huL]

/-- Claim C1: for the 1-D layer (LTI) with order 0, the forward call returns the input
channel-mixed by h0 at every kept position; in particular with zero-initialized
parameters (h0 = 0, as zero_init = True produces) the output is the all-zero tensor.
Stated for both the mimo and the elementwise einsum branch, for either causal flag. -/
theorem c1_order0_zero_init_output :
    (∀ (Din Dout : ℕ) (causal : Bool) (h0 : Fin Din → Fin Dout → ℝ)
        (num : Fin 2 → Fin Din → Fin Dout → ℕ → ℝ) (den : Fin Din → Fin Dout → ℕ → ℝ)
        (L : ℕ) (x : ℕ → Fin Din → ℝ) (t : ℕ), t < L → ∀ j,
        LTI.call Din Dout 0 causal h0 num den L x t j = ∑ i, h0 i j * x t i)
    ∧ (∀ (Din Dout : ℕ) (causal : Bool) (L : ℕ) (x : ℕ → Fin Din → ℝ) (t : ℕ)
        (j : Fin Dout),
        LTI.call Din Dout 0 causal (fun _ _ => 0) (fun _ _ _ _ => 0) (fun _ _ _ => 0)
          L x t j = 0)
    ∧ (∀ (D : ℕ) (causal : Bool) (h0 : Fin D → ℝ) (num : Fin 2 → Fin D → ℕ → ℝ)
        (den : Fin D → ℕ → ℝ) (L : ℕ) (x : ℕ → Fin D → ℝ) (t : ℕ), t < L → ∀ i,
        LTI.callElem D 0 causal h0 num den L x t i = h0 i * x t i)
    ∧ (∀ (D : ℕ) (causal : Bool) (L : ℕ) (x : ℕ → Fin D → ℝ) (t : ℕ) (i : Fin D),
        LTI.callElem D 0 causal (fun _ => 0) (fun _ _ _ => 0) (fun _ _ => 0)
          L x t i = 0) := by
  refine ⟨?_, ?_, ?_, ?_⟩
  · intro Din Dout causal h0 num den L x t ht j
    exact call_order0 Din Dout causal h0 num den L x t ht j
  · intro Din Dout causal L x t j
    by_cases ht : t < L
    · rw [call_order0 Din Dout causal _ _ _ L x t ht j]
      simp
    · unfold LTI.call
      rw [if_neg ht]
  · intro D causal h0 num den L x t ht i
    exact callElem_order0 D causal h0 num den L x t ht i
  · intro D causal L x t i
    by_cases ht : t < L
    · rw [callElem_order0 D causal _ _ _ L x t ht i]
      simp
    · unfold LTI.callElem
      rw [if_neg ht]

/-- Witness for c1_order0_zero_init_output at a concrete input. -/
theorem c1_order0_witness :
    0 < 1 ∧
    LTI.call 1 1 0 true (fun _ _ => (2 : ℝ)) (fun _ _ _ _ => 0) (fun _ _ _ => 0) 1
      (fun _ _ => (3 : ℝ)) 0 0 = ∑ _i : Fin 1, (2 : ℝ) * 3 :=
  ⟨Nat.zero_lt_one,
   c1_order0_zero_init_output.1 1 1 true (fun _ _ => 2) (fun _ _ _ _ => 0)
     (fun _ _ _ => 0) 1 (fun _ _ => 3) 0 Nat.zero_lt_one 0⟩

/-- Claim C2: for the 1-D layer constructed with causal = True, whenever two inputs
agree at every position up to t, the outputs agree at every position up to t (no
dependence on future input positions), in both einsum branches. -/
theorem c2_causal_no_lookahead :
    (∀ (Din Dout order : ℕ) (h0 : Fin Din → Fin Dout → ℝ)
        (num : Fin 2 → Fin Din → Fin Dout → ℕ → ℝ) (den : Fin Din → Fin Dout → ℕ → ℝ)
        (L : ℕ) (x x2 : ℕ → Fin Din → ℝ) (t : ℕ),
        (∀ s, s ≤ t → ∀ i, x s i = x2 s i) →
        ∀ u, u ≤ t → ∀ j, LTI.call Din Dout order true h0 num den L x u j
          = LTI.call Din Dout order true h0 num den L x2 u j)
    ∧ (∀ (D order : ℕ) (h0 : Fin D → ℝ) (num : Fin 2 → Fin D → ℕ → ℝ)
        (den : Fin D → ℕ → ℝ) (L : ℕ) (x x2 : ℕ → Fin D → ℝ) (t : ℕ),
        (∀ s, s ≤ t → ∀ i, x s i = x2 s i) →
        ∀ u, u ≤ t → ∀ i, LTI.callElem D order true h0 num den L x u i
          = LTI.callElem D order true h0 num den L x2 u i) := by
  constructor
  · intro Din Dout order h0 num den L x x2 t hagree u hu j
    exact call_causal_core Din Dout order h0 num den L x x2 t hagree u hu j
  · intro D order h0 num den L x x2 t hagree u hu i
    exact callElem_causal_core D order h0 num den L x x2 t hagree u hu i

/-- Witness for c2_causal_no_lookahead: two inputs differing only at position 1 give
identical outputs at position 0. -/
theorem c2_causal_witness :
    (∀ s, s ≤ 0 → ∀ i : Fin 1,
        (fun (s : ℕ) (_ : Fin 1) => if s = 0 then (1 : ℝ) else 0) s i
          = (fun (s : ℕ) (_ : Fin 1) => if s = 0 then (1 : ℝ) else 5) s i) ∧
    LTI.call 1 1 2 true (fun _ _ => 1) (fun _ _ _ _ => 1) (fun _ _ _ => 1) 4
        (fun s _ => if s = 0 then (1 : ℝ) else 0) 0 0
      = LTI.call 1 1 2 true (fun _ _ => 1) (fun _ _ _ _ => 1) (fun _ _ _ => 1) 4
        (fun s _ => if s = 0 then (1 : ℝ) else 5) 0 0 := by
  have hagree : ∀ s, s ≤ 0 → ∀ i : Fin 1,
      (fun (s : ℕ) (_ : Fin 1) => if s = 0 then (1 : ℝ) else 0) s i
        = (fun (s : ℕ) (_ : Fin 1) => if s = 0 then (1 : ℝ) else 5) s i := by
    intro s hs i
    have hs0 : s = 0 := Nat.le_zero.mp hs
    subst hs0
    simp
  exact ⟨hagree,
    c2_causal_no_lookahead.1 1 1 2 (fun _ _ => 1) (fun _ _ _ _ => 1) (fun _ _ _ => 1) 4
      (fun s _ => if s = 0 then (1 : ℝ) else 0)
      (fun s _ => if s = 0 then (1 : ℝ) else 5) 0 hagree 0 (le_refl 0) 0⟩

/-- Claim C5: construction of either transfer-function layer fails the assertion
exactly when mimo is off and the channel counts differ, for every argument choice. -/
theorem c5_init_assertion :
    ∀ (input_dim output_dim order : ℕ) (causal mimo zero_init : Bool),
      (LTI.init input_dim output_dim order causal mimo zero_init = none
        ↔ (mimo = false ∧ input_dim ≠ output_dim))
      ∧ (LTI2d.init input_dim output_dim order causal mimo zero_init = none
        ↔ (mimo = false ∧ input_dim ≠ output_dim)) := by
  intro i o ord c m z
  cases m <;> by_cases h : i = o <;>
    simp [LTI.init, LTI2d.init, h]

/-- Claim C10: the CIFAR loading loop opens its batch files under the literal "data"
directory, independent of the constructor path argument: the file read for index idx is
data/cifar-10-batches-py/data_batch_idx for every path. -/
theorem c10_batch_path_ignores_path :
    ∀ (path : String) (idx : ℕ),
      CIFAR10Dataset.batchFilePath path idx = CIFAR10Dataset.batchFilePath "data" idx
      ∧ CIFAR10Dataset.batchFilePath path idx
          = "data/cifar-10-batches-py" ++ "/" ++ ("data_batch_" ++ toString idx) := by
  intro path idx
  exact ⟨rfl, rfl⟩

/-- Claim C6 (code bug on the CIFAR side): with the directory consumed by the loading
loop, data/cifar-10-batches-py, present on disk, the constructor still decides to
fetch, because line 60 of src/datasets.py tests path/cifar10, a directory that the
extraction of cifar-10-python.tar.gz never creates. -/
theorem c6_cifar_fetch_despite_data :
    cifarFs6.pathExists "data/cifar-10-batches-py" = true ∧
    CIFAR10Dataset.fetches cifarFs6 "data" = true :=
  ⟨rfl, rfl⟩

theorem processFolders_empty (fs : SCFs) (path : String)
    (h : ∀ d, fs.wavFiles d = []) :
    ∀ l, processFolders fs path l = .ok [] := by
  intro l
  induction l with
  | nil => rfl
  | cons hd tl ih =>
    obtain ⟨lab, word⟩ := hd
    unfold processFolders
    rw [h (joinPath (joinPath path "sc09") word)]
    unfold processFolder
    rw [ih]
    rfl

theorem hstatus_no_extract_sc (world : SCWorld) (path : String)
    (hstatus : world.fs.httpStatus ≠ 200) :
    SpeechComand.effectiveFs world path = world.fs := by
  unfold SpeechComand.effectiveFs
  have hbeq : (world.fs.httpStatus == 200) = false := beq_eq_false_iff_ne.mpr hstatus
  rw [hbeq, Bool.and_false]
  rfl

theorem hstatus_no_extract_cifar (world : CifarWorld) (path : String)
    (hstatus : world.fs.httpStatus ≠ 200) :
    CIFAR10Dataset.effectiveFs world path = world.fs := by
  unfold CIFAR10Dataset.effectiveFs
  have hbeq : (world.fs.httpStatus == 200) = false := beq_eq_false_iff_ne.mpr hstatus
  rw [hbeq, Bool.and_false]
  rfl

/-- Claim C7, counterexample: with nothing on disk and a failed (HTTP 404) fetch, the
audio constructor reaches the loading step without raising and then fails with a
ValueError (np.stack on an empty list), not with a file-not-found error as claimed. -/
theorem c7_counterexample :
    SpeechComand.init scWorld7 "data" = Except.error PyError.valueError ∧
    PyError.valueError ≠ PyError.fileNotFoundError :=
  ⟨rfl, by decide⟩

/-- Claim C7 as amended: when the fetch fails (non-200) and nothing is on disk,
construction does not raise at the fetch step, and the loading step then fails: for the
CIFAR loader with a FileNotFoundError on opening the first batch file, but for the
audio loader with a ValueError from stacking an empty sample list (glob matches
nothing, so no file is ever opened). -/
theorem c7_amended_fetch_failure :
    (∀ (world : SCWorld) (path : String), world.fs.httpStatus ≠ 200 →
        (∀ d, world.fs.wavFiles d = []) →
        SpeechComand.init world path = Except.error PyError.valueError)
    ∧ (∀ (world : CifarWorld) (path : String), world.fs.httpStatus ≠ 200 →
        (∀ p, world.fs.fileAt p = none) →
        CIFAR10Dataset.init world path = Except.error PyError.fileNotFoundError) := by
  constructor
  · intro world path hstatus hempty
    unfold SpeechComand.init SpeechComand.loadRaw
    rw [hstatus_no_extract_sc world path hstatus,
      processFolders_empty world.fs path hempty]
    rfl
  · intro world path hstatus hnone
    unfold CIFAR10Dataset.init CIFAR10Dataset.load
    rw [hstatus_no_extract_cifar world path hstatus]
    unfold CIFAR10Dataset.loadBatches
    rw [hnone (CIFAR10Dataset.batchFilePath path 1)]

/-- Witness for c7_amended_fetch_failure at the concrete empty worlds. -/
theorem c7_amended_witness :
    SpeechComand.init scWorld7 "data" = Except.error PyError.valueError ∧
    CIFAR10Dataset.init cifarWorld7 "data" = Except.error PyError.fileNotFoundError :=
  ⟨c7_amended_fetch_failure.1 scWorld7 "data" (by decide) (fun d => rfl),
   c7_amended_fetch_failure.2 cifarWorld7 "data" (by decide) (fun p => rfl)⟩

set_option maxRecDepth 4096 in
theorem processWav_ok_mono {wv : Wav} {a : RawArray} (hm : wv.channels = none)
    (h : processWav wv = .ok a) :
    ∃ v : List ℤ, a = RawArray.one v ∧ v.length = 16 * 1024 := by
  unfold processWav at h
  split at h
  · exact Except.noConfusion h
  · split at h
    · exact Except.noConfusion h
    · split at h
      · exact Except.noConfusion h
      · rw [hm] at h
        have h1 := Except.ok.inj h
        exact ⟨_, h1.symm, by simp⟩

theorem processFolder_ok {lab : ℕ} {ws : List Wav} {g : List (ℕ × RawArray)}
    (h : processFolder lab ws = .ok g) :
    g.map Prod.fst = List.replicate ws.length lab
    ∧ ((∀ wv ∈ ws, wv.channels = none) →
        ∀ p ∈ g, ∃ v : List ℤ, p.2 = RawArray.one v ∧ v.length = 16 * 1024) := by
  induction ws generalizing g with
  | nil =>
    unfold processFolder at h
    cases h
    simp
  | cons wv rest ih =>
    unfold processFolder at h
    cases hv : processWav wv with
    | error e =>
      rw [hv] at h
      exact Except.noConfusion h
    | ok v =>
      rw [hv] at h
      cases hr : processFolder lab rest with
      | error e =>
        rw [hr] at h
        exact Except.noConfusion h
      | ok t =>
        rw [hr] at h
        cases h
        obtain ⟨ht1, ht2⟩ := ih hr
        constructor
        · simp [ht1, List.replicate_succ]
        · intro hmono p hp
          rcases List.mem_cons.mp hp with hp1 | hp2
          · subst hp1
            exact processWav_ok_mono (hmono wv (List.mem_cons_self wv rest)) hv
          · exact ht2 (fun q hq => hmono q (List.mem_cons_of_mem wv hq)) p hp2

theorem processFolders_ok {fs : SCFs} {path : String} {l : List (ℕ × String)}
    {r : List (ℕ × RawArray)} (h : processFolders fs path l = .ok r) :
    r.map Prod.fst
      = (l.map (fun iw =>
          List.replicate (fs.wavFiles (joinPath (joinPath path "sc09") iw.2)).length
            iw.1)).flatten
    ∧ ((∀ d, ∀ wv ∈ fs.wavFiles d, wv.channels = none) →
        ∀ p ∈ r, ∃ v : List ℤ, p.2 = RawArray.one v ∧ v.length = 16 * 1024) := by
  induction l generalizing r with
  | nil =>
    unfold processFolders at h
    cases h
    simp
  | cons hd tl ih =>
    obtain ⟨lab, word⟩ := hd
    unfold processFolders at h
    cases hg : processFolder lab (fs.wavFiles (joinPath (joinPath path "sc09") word)) with
    | error e =>
      rw [hg] at h
      exact Except.noConfusion h
    | ok g =>
      rw [hg] at h
      cases hr : processFolders fs path tl with
      | error e =>
        rw [hr] at h
        exact Except.noConfusion h
      | ok t =>
        rw [hr] at h
        cases h
        obtain ⟨hg1, hg2⟩ := processFolder_ok hg
        obtain ⟨ht1, ht2⟩ := ih hr
        constructor
        · rw [List.map_append, hg1, ht1]
          simp
        · intro hmono p hp
          rcases List.mem_append.mp hp with hp1 | hp2
          · exact hg2 (fun q hq => hmono _ q hq) p hp1
          · exact ht2 hmono p hp2

/-- Claim C8 as amended: after successful construction of the audio loader the data
dtype is float32 and the label sequence is exactly the class-folder indices in the
fixed zero..nine enumeration order, one label per file of that folder (so every label
lies in 0..9); and provided every wav file read is single-channel (a 1-D array, as
every file of the sc09 dataset is), every stored sample tensor has shape
(16 * 1024, 1), that is 16384 time steps and one channel. -/
theorem c8_audio_dataset_shape (world : SCWorld) (path : String) (ds : AudioDataset)
    (h : SpeechComand.init world path = .ok ds) :
    ds.dataDtype = TorchDtype.float32
    ∧ (∀ s ∈ ds.samples, s.label ≤ 9)
    ∧ ds.samples.map (fun s => s.label)
      = (digitWords.enum.map (fun iw =>
          List.replicate
            ((SpeechComand.effectiveFs world path).wavFiles
              (joinPath (joinPath path "sc09") iw.2)).length iw.1)).flatten
    ∧ ((∀ d, ∀ wv ∈ (SpeechComand.effectiveFs world path).wavFiles d,
          wv.channels = none) →
        ∀ s ∈ ds.samples, s.data.dims = [16 * 1024, 1]) := by
  unfold SpeechComand.init SpeechComand.loadRaw at h
  cases hraw : processFolders (SpeechComand.effectiveFs world path) path digitWords.enum with
  | error e =>
    rw [hraw] at h
    exact Except.noConfusion h
  | ok raw =>
    rw [hraw] at h
    dsimp only at h
    by_cases hst : stackOk raw = true
    · rw [if_pos hst] at h
      cases h
      obtain ⟨hmap, hone⟩ := processFolders_ok hraw
      have hlab9 : ∀ q ∈ digitWords.enum, q.1 ≤ 9 := by decide
      have hcomp : ((fun s : AudioSample => s.label) ∘ normalizeSample) = Prod.fst := by
        funext p
        rcases p with ⟨lab, a⟩
        cases a <;> rfl
      refine ⟨rfl, ?_, ?_, ?_⟩
      · intro s hs
        obtain ⟨p, hp, rfl⟩ := List.mem_map.mp hs
        have hmem : p.1 ∈ raw.map Prod.fst := List.mem_map_of_mem Prod.fst hp
        rw [hmap] at hmem
        obtain ⟨blk, hblk, hmem2⟩ := List.mem_flatten.mp hmem
        obtain ⟨q, hq, rfl⟩ := List.mem_map.mp hblk
        have hlab1 : p.1 = q.1 := List.eq_of_mem_replicate hmem2
        have hlabel : (normalizeSample p).label = p.1 := by
          rcases p with ⟨lab, a⟩
          cases a <;> rfl
        rw [hlabel, hlab1]
        exact hlab9 q hq
      · rw [List.map_map, hcomp, hmap]
      · intro hmono s hs
        obtain ⟨p, hp, rfl⟩ := List.mem_map.mp hs
        obtain ⟨v, hv, hlen⟩ := hone hmono p hp
        rcases p with ⟨lab, a⟩
        dsimp only at hv
        subst hv
        cases v with
        | nil => exact absurd hlen (by simp)
        | cons z zs =>
          have hlen2 : zs.length + 1 = 16 * 1024 := by simpa using hlen
          show SampleData.dims (SampleData.mono
            (((z :: zs).map (fun w : ℤ => (w : ℝ) / 32768)).map
              (fun r => [r / listStd ((z :: zs).map (fun w : ℤ => (w : ℝ) / 32768))])))
            = [16 * 1024, 1]
          simp [SampleData.dims, hlen2]
    · rw [if_neg hst] at h
      exact Except.noConfusion h

/-- Witness for c8_audio_dataset_shape on a concrete world with one valid mono file. -/
theorem c8_audio_witness :
    SpeechComand.init scWorldW "data" = .ok audioDsW
    ∧ (audioDsW.dataDtype = TorchDtype.float32
    ∧ (∀ s ∈ audioDsW.samples, s.label ≤ 9)
    ∧ audioDsW.samples.map (fun s => s.label)
      = (digitWords.enum.map (fun iw =>
          List.replicate
            ((SpeechComand.effectiveFs scWorldW "data").wavFiles
              (joinPath (joinPath "data" "sc09") iw.2)).length iw.1)).flatten
    ∧ ((∀ d, ∀ wv ∈ (SpeechComand.effectiveFs scWorldW "data").wavFiles d,
          wv.channels = none) →
        ∀ s ∈ audioDsW.samples, s.data.dims = [16 * 1024, 1])) :=
  ⟨rfl, c8_audio_dataset_shape scWorldW "data" audioDsW rfl⟩

/-- Claim C8, counterexample to the unamended claim: a 2-channel (stereo) 16 kHz int16
file with one frame passes all three assertions (len gives the frame count and the
dtype is int16); np.pad with its single pad pair then pads both axes, np.stack and the
normalization succeed, and construction returns a dataset whose stored sample tensor
has shape (16383, 16384, 1) rather than 16384 time steps with one channel. -/
theorem c8_counterexample_stereo :
    SpeechComand.init scWorldX "data" = .ok audioDsX
    ∧ audioDsX.samples.map (fun s => s.data.dims) = [[16383, 16384, 1]]
    ∧ ([[16383, 16384, 1]] : List (List ℕ)) ≠ [[16 * 1024, 1]] :=
  ⟨rfl, rfl, by decide⟩

theorem checkBatch_ok {b : CifarBatch} {u : Unit}
    (h : CIFAR10Dataset.checkBatch b = .ok u) :
    b.dtype = NpDtype.uint8 ∧ b.nrows = 10000 := by
  unfold CIFAR10Dataset.checkBatch at h
  split at h
  · exact Except.noConfusion h
  · next hdty =>
    split at h
    · exact Except.noConfusion h
    · next hshape => exact ⟨not_not.mp hdty, (not_not.mp hshape).1⟩

theorem loadBatches_ok {fs : CifarFS} {path : String} {l : List ℕ}
    {bs : List CifarBatch} (h : CIFAR10Dataset.loadBatches fs path l = .ok bs) :
    bs.length = l.length ∧ ∀ b ∈ bs, b.dtype = NpDtype.uint8 ∧ b.nrows = 10000 := by
  induction l generalizing bs with
  | nil =>
    unfold CIFAR10Dataset.loadBatches at h
    cases h
    simp
  | cons idx rest ih =>
    unfold CIFAR10Dataset.loadBatches at h
    cases hf : fs.fileAt (CIFAR10Dataset.batchFilePath path idx) with
    | none =>
      rw [hf] at h
      exact Except.noConfusion h
    | some b =>
      rw [hf] at h
      dsimp only at h
      cases hc : CIFAR10Dataset.checkBatch b with
      | error e =>
        rw [hc] at h
        exact Except.noConfusion h
      | ok u =>
        rw [hc] at h
        cases ht : CIFAR10Dataset.loadBatches fs path rest with
        | error e =>
          rw [ht] at h
          exact Except.noConfusion h
        | ok t =>
          rw [ht] at h
          cases h
          obtain ⟨hl, hall⟩ := ih ht
          refine ⟨by simp [hl], ?_⟩
          intro b2 hb2
          rcases List.mem_cons.mp hb2 with h1 | h2
          · subst h1
            exact checkBatch_ok hc
          · exact hall b2 h2

/-- Claim C9: after successful construction of the CIFAR loader, the dataset holds
exactly 50000 images and every pixel value lies in [0, 1] (the (3, 32, 32) image shape
is the type of the image tensors). -/
theorem c9_cifar_dataset (world : CifarWorld) (path : String) (d : CifarData)
    (h : CIFAR10Dataset.init world path = .ok d) :
    d.images.length = 50000
    ∧ ∀ img ∈ d.images, ∀ (c : Fin 3) (i j : Fin 32), 0 ≤ img c i j ∧ img c i j ≤ 1 := by
  unfold CIFAR10Dataset.init CIFAR10Dataset.load at h
  cases hlb : CIFAR10Dataset.loadBatches (CIFAR10Dataset.effectiveFs world path) path
      [1, 2, 3, 4, 5] with
  | error e =>
    rw [hlb] at h
    exact Except.noConfusion h
  | ok bs =>
    rw [hlb] at h
    cases h
    obtain ⟨hlen, hall⟩ := loadBatches_ok hlb
    constructor
    · rw [List.length_flatten, List.map_map]
      have hcomp : (List.length ∘ CIFAR10Dataset.batchImages) = fun b : CifarBatch => b.nrows := by
        funext b
        simp [CIFAR10Dataset.batchImages]
      rw [hcomp]
      have hallrows : ∀ v ∈ bs.map (fun b : CifarBatch => b.nrows), v = 10000 := by
        intro v hv
        obtain ⟨b, hb, rfl⟩ := List.mem_map.mp hv
        exact (hall b hb).2
      rw [List.sum_eq_card_nsmul _ 10000 hallrows, List.length_map, hlen]
      rfl
    · intro img himg c i j
      obtain ⟨limg, hlimg, himg2⟩ := List.mem_flatten.mp himg
      obtain ⟨b, hb, rfl⟩ := List.mem_map.mp hlimg
      obtain ⟨r, _, rfl⟩ := List.mem_map.mp himg2
      have hbound := b.dtypeSound (hall b hb).1 r ((c : ℕ) * 1024 + (i : ℕ) * 32 + (j : ℕ))
      constructor
      · apply div_nonneg _ (by norm_num : (0 : ℝ) ≤ 255)
        exact_mod_cast hbound.1
      · rw [div_le_one (by norm_num : (0 : ℝ) < 255)]
        have h255 : b.bytes r ((c : ℕ) * 1024 + (i : ℕ) * 32 + (j : ℕ)) ≤ 255 := by
          omega
        exact_mod_cast h255

/-- Witness for c9_cifar_dataset on a concrete world with five valid batches. -/
theorem c9_cifar_witness :
    CIFAR10Dataset.init cifarWorldW "data" = .ok cifarDataW
    ∧ (cifarDataW.images.length = 50000
    ∧ ∀ img ∈ cifarDataW.images, ∀ (c : Fin 3) (i j : Fin 32),
        0 ≤ img c i j ∧ img c i j ≤ 1) := by
  have hcb : CIFAR10Dataset.checkBatch cifarBatchW = .ok () := by
    unfold CIFAR10Dataset.checkBatch
    rw [if_neg (show ¬ (cifarBatchW.dtype ≠ NpDtype.uint8) by decide)]
    rw [if_neg (show ¬ ¬ (cifarBatchW.nrows = 10000 ∧ cifarBatchW.ncols = 3072) by decide)]
    have h3 : ¬ (cifarBatchW.labels.length ≠ 10000) := by
      rw [show cifarBatchW.labels = List.replicate 10000 0 from rfl, List.length_replicate]
      exact not_not_intro rfl
    rw [if_neg h3]
  have hlb : ∀ l : List ℕ,
      CIFAR10Dataset.loadBatches cifarWorldW.fs "data" l
        = .ok (List.replicate l.length cifarBatchW) := by
    intro l
    induction l with
    | nil => rfl
    | cons idx rest ih =>
      unfold CIFAR10Dataset.loadBatches
      rw [show cifarWorldW.fs.fileAt (CIFAR10Dataset.batchFilePath "data" idx)
          = some cifarBatchW from rfl]
      dsimp only
      rw [hcb]
      dsimp only
      rw [ih]
      rfl
  have hinit : CIFAR10Dataset.init cifarWorldW "data" = .ok cifarDataW := by
    unfold CIFAR10Dataset.init CIFAR10Dataset.load
    rw [show CIFAR10Dataset.effectiveFs cifarWorldW "data" = cifarWorldW.fs from rfl]
    rw [hlb [1, 2, 3, 4, 5]]
    rfl
  exact ⟨hinit, c9_cifar_dataset cifarWorldW "data" cifarDataW hinit⟩

theorem rev_append_pair (B : List ℕ) (a b : ℕ) :
    (B ++ [a, b]).reverse = b :: a :: B.reverse := by
  simp

theorem rev_cons_cons (B : List ℕ) (a b : ℕ) :
    (a :: b :: B.reverse).reverse = B ++ [b, a] := by
  simp

theorem dimFromEnd_zero (B : List ℕ) (a b : ℕ) :
    TorchShape.dimFromEnd 0 (B ++ [a, b]) = some b := by
  unfold TorchShape.dimFromEnd
  rw [rev_append_pair]
  rfl

theorem dimFromEnd_one (B : List ℕ) (a b : ℕ) :
    TorchShape.dimFromEnd 1 (B ++ [a, b]) = some a := by
  unfold TorchShape.dimFromEnd
  rw [rev_append_pair]
  rfl

theorem setFromEnd_zero (B : List ℕ) (a b n : ℕ) :
    TorchShape.setFromEnd 0 n (B ++ [a, b]) = some (B ++ [a, n]) := by
  unfold TorchShape.setFromEnd
  have hlen : 0 < (B ++ [a, b]).length := by
    simp
  rw [if_pos hlen, rev_append_pair]
  dsimp [List.set]
  rw [rev_cons_cons]

theorem setFromEnd_one (B : List ℕ) (a b n : ℕ) :
    TorchShape.setFromEnd 1 n (B ++ [a, b]) = some (B ++ [n, b]) := by
  unfold TorchShape.setFromEnd
  have hlen : 1 < (B ++ [a, b]).length := by
    simp
  rw [if_pos hlen, rev_append_pair]
  dsimp [List.set]
  rw [rev_cons_cons]

/-- Claim C3 as amended: for every input shape (batch..., L, D) with L at least 1 and D
equal to the configured input channel count, the forward shape pipeline yields
(batch..., L, D_out) in mimo mode and (batch..., L, D) in elementwise mode. -/
theorem c3_forward_shape (B : List ℕ) (L input_dim output_dim dim_ order : ℕ)
    (causal : Bool) (hL : 0 < L) :
    TorchShape.forwardShapeMimo input_dim output_dim order causal (B ++ [L, input_dim])
      = some (B ++ [L, output_dim])
    ∧ TorchShape.forwardShapeElem dim_ order causal (B ++ [L, dim_])
      = some (B ++ [L, dim_]) := by
  have hL0 : L ≠ 0 := by omega
  have h2L0 : 2 * L ≠ 0 := by omega
  have hdiv : 2 * L / 2 + 1 = L + 1 := by omega
  have hne1 : (1 : ℕ) ≠ L + 1 := by omega
  have hmin : min (2 * L) L = L := by omega
  have hsub : 2 * (L + 1 - 1) = 2 * L := by omega
  constructor
  · -- mimo branch, stepwise evaluation of the shape pipeline
    have eb : TorchShape.rfftShape L 0 [2, input_dim, output_dim, 1 + order + 0]
        = some [2, input_dim, output_dim, L / 2 + 1] := by
      unfold TorchShape.rfftShape
      rw [if_neg hL0]
      rfl
    have ea : TorchShape.rfftShape L 0 [input_dim, output_dim, 1 + order + 0]
        = some [input_dim, output_dim, L / 2 + 1] := by
      unfold TorchShape.rfftShape
      rw [if_neg hL0]
      rfl
    have ebc : TorchShape.broadcastShapes [2, input_dim, output_dim, L / 2 + 1]
        [input_dim, output_dim, L / 2 + 1] = some [2, input_dim, output_dim, L / 2 + 1] := by
      simp [TorchShape.broadcastShapes, TorchShape.broadcastRev]
    have eht : TorchShape.irfftShapeN L 0 [2, input_dim, output_dim, L / 2 + 1]
        = some [2, input_dim, output_dim, L] := by
      unfold TorchShape.irfftShapeN
      rw [if_neg hL0]
      rfl
    have eH : TorchShape.rfftShape (2 * L) 0 [2, input_dim, output_dim, L]
        = some [2, input_dim, output_dim, L + 1] := by
      unfold TorchShape.rfftShape
      rw [if_neg h2L0, show TorchShape.setFromEnd 0 (2 * L / 2 + 1)
        [2, input_dim, output_dim, L]
          = some [2, input_dim, output_dim, 2 * L / 2 + 1] from rfl, hdiv]
    have eh0 : TorchShape.broadcastShapes [input_dim, output_dim, 1]
        [input_dim, output_dim, L + 1] = some [input_dim, output_dim, L + 1] := by
      simp [TorchShape.broadcastShapes, TorchShape.broadcastRev, hne1]
    have eh1 : TorchShape.broadcastShapes [input_dim, output_dim, L + 1]
        [input_dim, output_dim, L + 1] = some [input_dim, output_dim, L + 1] := by
      simp [TorchShape.broadcastShapes, TorchShape.broadcastRev]
    have eX : TorchShape.rfftShape (2 * L) 1 (B ++ [L, input_dim])
        = some (B ++ [L + 1, input_dim]) := by
      unfold TorchShape.rfftShape
      rw [if_neg h2L0, setFromEnd_one, hdiv]
    have eY : TorchShape.einsumMimo (B ++ [L + 1, input_dim])
        [input_dim, output_dim, L + 1] = some (B ++ [L + 1, output_dim]) := by
      unfold TorchShape.einsumMimo
      rw [rev_append_pair]
      dsimp only
      rw [if_pos ⟨rfl, rfl⟩, rev_cons_cons]
    have ey : TorchShape.irfftShapeD 1 (B ++ [L + 1, output_dim])
        = some (B ++ [2 * L, output_dim]) := by
      unfold TorchShape.irfftShapeD
      rw [dimFromEnd_one]
      simp only [Option.bind_eq_bind, Option.some_bind]
      rw [hsub, if_neg h2L0, setFromEnd_one]
    have esl : TorchShape.sliceFromEnd 1 L (B ++ [2 * L, output_dim])
        = some (B ++ [L, output_dim]) := by
      unfold TorchShape.sliceFromEnd
      rw [dimFromEnd_one]
      simp only [Option.bind_eq_bind, Option.some_bind]
      rw [hmin, setFromEnd_one]
    cases causal <;>
      simp only [TorchShape.forwardShapeMimo, dimFromEnd_one, dimFromEnd_zero,
        Option.bind_eq_bind, Option.some_bind,
        show TorchShape.padLast 1 0 [input_dim, output_dim, order]
          = some [input_dim, output_dim, 1 + order + 0] from rfl,
        show TorchShape.padLast 1 0 [2, input_dim, output_dim, order]
          = some [2, input_dim, output_dim, 1 + order + 0] from rfl,
        eb, ea, ebc, eht, eH,
        show TorchShape.unbind2 [2, input_dim, output_dim, L + 1]
          = some ([input_dim, output_dim, L + 1], [input_dim, output_dim, L + 1]) from rfl,
        eh0, eh1, eX, eY, ey, esl, Bool.false_eq_true, if_false, if_true, pure]
  · -- elementwise branch
    have eb : TorchShape.rfftShape L 0 [2, dim_, 1 + order + 0]
        = some [2, dim_, L / 2 + 1] := by
      unfold TorchShape.rfftShape
      rw [if_neg hL0]
      rfl
    have ea : TorchShape.rfftShape L 0 [dim_, 1 + order + 0]
        = some [dim_, L / 2 + 1] := by
      unfold TorchShape.rfftShape
      rw [if_neg hL0]
      rfl
    have ebc : TorchShape.broadcastShapes [2, dim_, L / 2 + 1] [dim_, L / 2 + 1]
        = some [2, dim_, L / 2 + 1] := by
      simp [TorchShape.broadcastShapes, TorchShape.broadcastRev]
    have eht : TorchShape.irfftShapeN L 0 [2, dim_, L / 2 + 1]
        = some [2, dim_, L] := by
      unfold TorchShape.irfftShapeN
      rw [if_neg hL0]
      rfl
    have eH : TorchShape.rfftShape (2 * L) 0 [2, dim_, L]
        = some [2, dim_, L + 1] := by
      unfold TorchShape.rfftShape
      rw [if_neg h2L0, show TorchShape.setFromEnd 0 (2 * L / 2 + 1) [2, dim_, L]
          = some [2, dim_, 2 * L / 2 + 1] from rfl, hdiv]
    have eh0 : TorchShape.broadcastShapes [dim_, 1] [dim_, L + 1]
        = some [dim_, L + 1] := by
      simp [TorchShape.broadcastShapes, TorchShape.broadcastRev, hne1]
    have eh1 : TorchShape.broadcastShapes [dim_, L + 1] [dim_, L + 1]
        = some [dim_, L + 1] := by
      simp [TorchShape.broadcastShapes, TorchShape.broadcastRev]
    have eX : TorchShape.rfftShape (2 * L) 1 (B ++ [L, dim_])
        = some (B ++ [L + 1, dim_]) := by
      unfold TorchShape.rfftShape
      rw [if_neg h2L0, setFromEnd_one, hdiv]
    have eY : TorchShape.einsumElem (B ++ [L + 1, dim_]) [dim_, L + 1]
        = some (B ++ [L + 1, dim_]) := by
      unfold TorchShape.einsumElem
      rw [rev_append_pair]
      dsimp only
      rw [if_pos ⟨rfl, rfl⟩]
    have ey : TorchShape.irfftShapeD 1 (B ++ [L + 1, dim_])
        = some (B ++ [2 * L, dim_]) := by
      unfold TorchShape.irfftShapeD
      rw [dimFromEnd_one]
      simp only [Option.bind_eq_bind, Option.some_bind]
      rw [hsub, if_neg h2L0, setFromEnd_one]
    have esl : TorchShape.sliceFromEnd 1 L (B ++ [2 * L, dim_])
        = some (B ++ [L, dim_]) := by
      unfold TorchShape.sliceFromEnd
      rw [dimFromEnd_one]
      simp only [Option.bind_eq_bind, Option.some_bind]
      rw [hmin, setFromEnd_one]
    cases causal <;>
      simp only [TorchShape.forwardShapeElem, dimFromEnd_one, dimFromEnd_zero,
        Option.bind_eq_bind, Option.some_bind,
        show TorchShape.padLast 1 0 [dim_, order]
          = some [dim_, 1 + order + 0] from rfl,
        show TorchShape.padLast 1 0 [2, dim_, order]
          = some [2, dim_, 1 + order + 0] from rfl,
        eb, ea, ebc, eht, eH,
        show TorchShape.unbind2 [2, dim_, L + 1]
          = some ([dim_, L + 1], [dim_, L + 1]) from rfl,
        eh0, eh1, eX, eY, ey, esl, Bool.false_eq_true, if_false, if_true, pure]

/-- Witness for c3_forward_shape at a concrete shape. -/
theorem c3_forward_shape_witness :
    0 < 4 ∧
    (TorchShape.forwardShapeMimo 3 5 8 true ([7] ++ [4, 3]) = some ([7] ++ [4, 5])
    ∧ TorchShape.forwardShapeElem 3 8 true ([7] ++ [4, 3]) = some ([7] ++ [4, 3])) :=
  ⟨by decide, c3_forward_shape [7] 4 3 5 3 8 true (by decide)⟩

/-- Claim C3, counterexample to the unamended claim: a zero-length sequence (shape
(0, 1) with one configured channel) makes the forward pass fail at rfft(b, n=0)
instead of returning a tensor of shape (0, 1). -/
theorem c3_counterexample_len_zero :
    TorchShape.forwardShapeMimo 1 1 0 true [0, 1] = none
    ∧ TorchShape.forwardShapeMimo 1 1 0 true [0, 1] ≠ some [0, 1] := by
  refine ⟨rfl, ?_⟩
  intro h
  exact Option.noConfusion (h.symm.trans rfl)

theorem rfft2_zero_fun (N1 N2 k1 k2 : ℕ) : rfft2 N1 N2 (fun _ _ => 0) k1 k2 = 0 := by
  simp [rfft2, dft2]

theorem irfft2_congr (N1 N2 : ℕ) {F G : ℕ → ℕ → ℂ} (h : ∀ k1 k2, F k1 k2 = G k1 k2)
    (t1 t2 : ℕ) : irfft2 N1 N2 F t1 t2 = irfft2 N1 N2 G t1 t2 := by
  have hFG : F = G := funext fun a => funext fun b => h a b
  rw [hFG]

theorem irfft2_zero_fun (N1 N2 t1 t2 : ℕ) : irfft2 N1 N2 (fun _ _ => 0) t1 t2 = 0 := by
  simp [irfft2, hermExt2]

theorem bCoeff2_t2zero (order : ℕ) (nu : ℕ → ℕ → ℝ) (t1 : ℕ) :
    LTI2d.bCoeff2 order nu t1 0 = 0 := by
  simp [LTI2d.bCoeff2]

/-- With the second transform size trimmed to 1, only the prepended zero column of the
padded numerators is read, so the numerator spectrum vanishes identically. -/
theorem rfft2_bCoeff2_width1 (L1 order : ℕ) (nu : ℕ → ℕ → ℝ) (k1 k2 : ℕ) :
    rfft2 L1 1 (LTI2d.bCoeff2 order nu) k1 k2 = 0 := by
  unfold rfft2 dft2
  refine Finset.sum_eq_zero fun t1 _ => ?_
  rw [Finset.sum_range_one]
  dsimp only
  rw [bCoeff2_t2zero]
  simp

theorem Htrunc2_width1 (L1 order : ℕ) (nu den : ℕ → ℕ → ℝ) (k1 k2 : ℕ) :
    LTI2d.Htrunc2 L1 1 order nu den k1 k2 = 0 := by
  unfold LTI2d.Htrunc2
  rw [rfft2_bCoeff2_width1]
  exact zero_div _

theorem htrunc2_width1 (L1 order : ℕ) (nu den : ℕ → ℕ → ℝ) (t1 t2 : ℕ) :
    LTI2d.htrunc2 L1 1 order nu den t1 t2 = 0 := by
  unfold LTI2d.htrunc2
  rw [irfft2_congr L1 1 (fun k1 k2 => Htrunc2_width1 L1 order nu den k1 k2) t1 t2,
    irfft2_zero_fun]

theorem Hquad_width1 (L1 order : ℕ) (nu den : ℕ → ℕ → ℝ) (k1 k2 : ℕ) :
    LTI2d.Hquad L1 1 order nu den k1 k2 = 0 := by
  unfold LTI2d.Hquad
  have hc : cut2 L1 1 (LTI2d.htrunc2 L1 1 order nu den) = fun _ _ => 0 := by
    funext a b
    unfold cut2
    rw [htrunc2_width1]
    simp
  rw [hc, rfft2_zero_fun]

/-- With width 1 every quadrant component vanishes and the 2-D transfer function is the
bare h0 term, in both causal modes. -/
theorem Hfreq2_width1 (L1 order : ℕ) (causal : Bool) (c : ℝ)
    (n0 n1 n2 n3 den : ℕ → ℕ → ℝ) (k1 k2 : ℕ) :
    LTI2d.Hfreq2 L1 1 order causal c n0 n1 n2 n3 den k1 k2 = ((c : ℝ) : ℂ) := by
  unfold LTI2d.Hfreq2
  cases causal <;> simp [Hquad_width1]

/-- A width-1 input tensor inside the (N1, 2) transform has the spectrum of its single
column as a 1-D signal, independent of the second frequency index. -/
theorem rfft2_width1_as_rfft (N1 L1 : ℕ) (p : ℕ → ℕ → ℝ) (k1 k2 : ℕ) :
    rfft2 N1 2 (cut2 L1 1 p) k1 k2 = rfft N1 (cut L1 (fun t => p t 0)) k1 := by
  unfold rfft2 dft2 rfft dft
  refine Finset.sum_congr rfl fun t1 _ => ?_
  rw [Finset.sum_range_succ, Finset.sum_range_one]
  dsimp only
  have h1 : cut2 L1 1 p t1 1 = 0 := by
    unfold cut2
    simp
  have h0 : cut2 L1 1 p t1 0 = cut L1 (fun t => p t 0) t1 := by
    unfold cut2 cut
    by_cases h : t1 < L1 <;> simp [h]
  rw [h1, h0]
  simp

/-- Collapsing the second axis of the inverse 2-D transform when the spectrum does not
depend on the second frequency index: at second position 0 the result is the plain 1-D
inverse transform value (real component). -/
theorem irfft2_two_collapse (N1 : ℕ) (S : ℕ → ℂ) (t1 : ℕ) :
    irfft2 N1 2 (fun k1 _ => S k1) t1 0 = (idft N1 S t1).re := by
  unfold irfft2 idft
  congr 1
  have hinner : ∀ k1, ∑ k2 ∈ range 2,
      hermExt2 N1 2 (fun k1 _ => S k1) k1 k2 * w N1 ^ (t1 * k1) * w 2 ^ (0 * k2)
        = 2 * (S k1 * w N1 ^ (t1 * k1)) := by
    intro k1
    rw [Finset.sum_range_succ, Finset.sum_range_one]
    unfold hermExt2
    norm_num
    ring
  rw [Finset.sum_congr rfl fun k1 _ => hinner k1, ← Finset.mul_sum]
  generalize (∑ k1 ∈ range N1, S k1 * w N1 ^ (t1 * k1)) = T
  push_cast
  rw [mul_inv]
  calc ((N1 : ℂ))⁻¹ * (2 : ℂ)⁻¹ * (2 * T)
      = (N1 : ℂ)⁻¹ * (((2 : ℂ)⁻¹ * 2) * T) := by ring
    _ = (N1 : ℂ)⁻¹ * T := by rw [inv_mul_cancel₀ two_ne_zero, one_mul]

theorem bCoeff_zero_num (order : ℕ) : LTI.bCoeff order (fun _ => 0) = fun _ => 0 := by
  funext t
  unfold LTI.bCoeff
  split
  · rfl
  · split <;> rfl

/-- With identically zero numerator parameters the 1-D transfer function is the bare
h0 term, for any denominator and either causal flag. -/
theorem Hfreq_zero_num (L order : ℕ) (causal : Bool) (c : ℝ) (den : ℕ → ℝ) (k : ℕ) :
    LTI.Hfreq L order causal c (fun _ => 0) (fun _ => 0) den k = ((c : ℝ) : ℂ) := by
  have hpad : ∀ k, LTI.Hpad L order (fun _ => 0) den k = 0 := by
    intro k
    unfold LTI.Hpad
    have h2 : ∀ k, LTI.Htrunc L order (fun _ => 0) den k = 0 := by
      intro k
      unfold LTI.Htrunc
      rw [bCoeff_zero_num, rfft_zero_fun]
      exact zero_div _
    have h1 : ∀ t, LTI.htrunc L order (fun _ => 0) den t = 0 := by
      intro t
      unfold LTI.htrunc
      rw [irfft_congr L h2 t, irfft_zero_fun]
    have h3 : cut L (LTI.htrunc L order (fun _ => 0) den) = fun _ => 0 := by
      funext t
      unfold cut
      rw [h1]
      simp
    rw [h3, rfft_zero_fun]
  unfold LTI.Hfreq
  cases causal <;> simp [hpad]

/-- Claim C4: the 2-D layer on width-1 inputs agrees with the 1-D layer on the
remaining axis with the correspondingly restricted parameters: the same h0, and the
parameter slices the width-1 computation actually consumes, namely the prepended zero
numerator column (so zero numerators) and the prepended all-ones denominator column.
Stated for both einsum branches and either causal flag. -/
theorem c4_width1_matches_1d :
    (∀ (Din Dout order : ℕ) (causal : Bool) (h0 : Fin Din → Fin Dout → ℝ)
        (num : Fin 4 → Fin Din → Fin Dout → ℕ → ℕ → ℝ)
        (den : Fin Din → Fin Dout → ℕ → ℕ → ℝ) (L1 : ℕ) (x : ℕ → ℕ → Fin Din → ℝ)
        (t1 : ℕ) (j : Fin Dout),
        LTI2d.call Din Dout order causal h0 num den L1 1 x t1 0 j
          = LTI.call Din Dout order causal h0 (fun _ _ _ _ => 0) (fun _ _ _ => 1)
              L1 (fun s i => x s 0 i) t1 j)
    ∧ (∀ (D order : ℕ) (causal : Bool) (h0 : Fin D → ℝ)
        (num : Fin 4 → Fin D → ℕ → ℕ → ℝ) (den : Fin D → ℕ → ℕ → ℝ)
        (L1 : ℕ) (x : ℕ → ℕ → Fin D → ℝ) (t1 : ℕ) (i : Fin D),
        LTI2d.callElem D order causal h0 num den L1 1 x t1 0 i
          = LTI.callElem D order causal h0 (fun _ _ _ => 0) (fun _ _ => 1)
              L1 (fun s i => x s 0 i) t1 i) := by
  constructor
  · intro Din Dout order causal h0 num den L1 x t1 j
    by_cases ht1 : t1 < L1
    · have h2L1 : 2 * L1 ≠ 0 := by omega
      unfold LTI2d.call LTI.call
      rw [if_pos (⟨ht1, Nat.zero_lt_one⟩ : t1 < L1 ∧ 0 < 1), if_pos ht1]
      simp only [show (2 * 1 : ℕ) = 2 from rfl]
      have hG : ∀ k1 k2,
          (∑ i, rfft2 (2 * L1) 2 (cut2 L1 1 (fun a b => x a b i)) k1 k2 *
            LTI2d.Hfreq2 L1 1 order causal (h0 i j) (num 0 i j) (num 1 i j)
              (num 2 i j) (num 3 i j) (den i j) k1 k2)
          = ∑ i, rfft (2 * L1) (cut L1 (fun s => x s 0 i)) k1 * ((h0 i j : ℝ) : ℂ) := by
        intro k1 k2
        refine Finset.sum_congr rfl fun i _ => ?_
        rw [Hfreq2_width1, rfft2_width1_as_rfft]
      rw [irfft2_congr (2 * L1) 2 hG t1 0]
      rw [irfft2_two_collapse (2 * L1)
        (fun k1 => ∑ i, rfft (2 * L1) (cut L1 (fun s => x s 0 i)) k1 * ((h0 i j : ℝ) : ℂ)) t1]
      have hHeq : ∀ k,
          (∑ i, rfft (2 * L1) (cut L1 (fun s => x s 0 i)) k *
            LTI.Hfreq L1 order causal (h0 i j) (fun _ => 0) (fun _ => 0) (fun _ => 1) k)
          = ∑ i, rfft (2 * L1) (cut L1 (fun s => x s 0 i)) k * ((h0 i j : ℝ) : ℂ) := by
        intro k
        refine Finset.sum_congr rfl fun i _ => ?_
        rw [Hfreq_zero_num]
      rw [irfft_congr (2 * L1) hHeq t1]
      have hsym : ConjSym (2 * L1)
          (fun k => ∑ i, rfft (2 * L1) (cut L1 (fun s => x s 0 i)) k * ((h0 i j : ℝ) : ℂ)) :=
        conjSym_sum Finset.univ _ fun i _ =>
          conjSym_mul (conjSym_rfft (2 * L1) h2L1 (cut L1 (fun s => x s 0 i)))
            (conjSym_const (2 * L1) (h0 i j))
      rw [irfft_eq_re_idft hsym t1]
    · unfold LTI2d.call LTI.call
      rw [if_neg (fun hcond => ht1 hcond.1), if_neg ht1]
  · intro D order causal h0 num den L1 x t1 i
    by_cases ht1 : t1 < L1
    · have h2L1 : 2 * L1 ≠ 0 := by omega
      unfold LTI2d.callElem LTI.callElem
      rw [if_pos (⟨ht1, Nat.zero_lt_one⟩ : t1 < L1 ∧ 0 < 1), if_pos ht1]
      simp only [show (2 * 1 : ℕ) = 2 from rfl]
      have hG : ∀ k1 k2,
          rfft2 (2 * L1) 2 (cut2 L1 1 (fun a b => x a b i)) k1 k2 *
            LTI2d.Hfreq2 L1 1 order causal (h0 i) (num 0 i) (num 1 i)
              (num 2 i) (num 3 i) (den i) k1 k2
          = rfft (2 * L1) (cut L1 (fun s => x s 0 i)) k1 * ((h0 i : ℝ) : ℂ) := by
        intro k1 k2
        rw [Hfreq2_width1, rfft2_width1_as_rfft]
      rw [irfft2_congr (2 * L1) 2 hG t1 0]
      rw [irfft2_two_collapse (2 * L1)
        (fun k1 => rfft (2 * L1) (cut L1 (fun s => x s 0 i)) k1 * ((h0 i : ℝ) : ℂ)) t1]
      have hHeq : ∀ k,
          rfft (2 * L1) (cut L1 (fun s => x s 0 i)) k *
            LTI.Hfreq L1 order causal (h0 i) (fun _ => 0) (fun _ => 0) (fun _ => 1) k
          = rfft (2 * L1) (cut L1 (fun s => x s 0 i)) k * ((h0 i : ℝ) : ℂ) := by
        intro k
        rw [Hfreq_zero_num]
      rw [irfft_congr (2 * L1) hHeq t1]
      have hsym : ConjSym (2 * L1)
          (fun k => rfft (2 * L1) (cut L1 (fun s => x s 0 i)) k * ((h0 i : ℝ) : ℂ)) :=
        conjSym_mul (conjSym_rfft (2 * L1) h2L1 (cut L1 (fun s => x s 0 i)))
          (conjSym_const (2 * L1) (h0 i))
      rw [irfft_eq_re_idft hsym t1]
    · unfold LTI2d.callElem LTI.callElem
      rw [if_neg (fun hcond => ht1 hcond.1), if_neg ht1]
